import Mathlib

/-! freeablo: combat resolution and experience in `FAWorld::Player`

A shallow embedding of `apps/freeablo/faworld/player.cpp`: the to-hit check
(`Player::checkHit`), melee damage (`Player::meleeDamageVs`) and experience /
levelling (`Player::addExperience`, `Player::levelUp`).

Conventions.
* `int32_t` values are `Int`; every arithmetic step of the source that can
  leave the 32-bit range is followed by `i32`, the two's-complement wrap.
* Integer division of the source is `Int.tdiv` (truncation toward zero).
* The shared random stream `mWorld.mRng` is threaded explicitly: a draw takes
  the stream state and returns the value drawn and the next state.
* Getters whose bodies live in headers outside this file (`getArmorPenetration`,
  `getCharacterLevel`, ...) are read from a record of their return values.
* `float` is IEEE-754 binary32 with every operation rounded to nearest, ties to
  even (no extended-precision intermediates), as on x86-64 and AArch64.
-/

namespace FAWorld

/-! ## Machine integers -/

/-- Two's-complement wrap of an integer into the `int32_t` range. -/
def i32 (x : Int) : Int := (x + 2147483648) % 4294967296 - 2147483648

/-- The value is representable as an `int32_t`. -/
def Fits32 (x : Int) : Prop := -2147483648 ≤ x ∧ x ≤ 2147483647

instance (x : Int) : Decidable (Fits32 x) := by unfold Fits32; infer_instance

/-- The function `boost::algorithm::clamp(val, lo, hi)`:
`(val < lo) ? lo : (hi < val) ? hi : val`. -/
def clamp (val lo hi : Int) : Int :=
  if val < lo then lo else if hi < val then hi else val

/-! ## Data model -/

/-- The enumeration `PlayerClass`. -/
inductive PlayerClass where
  | warrior
  | rogue
  | sorcerer
  deriving DecidableEq, Repr

/-- The members of `mPlayerStats` read or written by the modelled functions. -/
structure PlayerStats where
  mDexterity : Int
  mLevel : Int
  mExp : Int
  deriving DecidableEq, Repr

/-- A `max` / `current` pair such as `mStats.mHp` and `mStats.mMana`. -/
structure MaxCurrentItem where
  max : Int
  current : Int
  deriving DecidableEq, Repr

/-- The members of `mStats` touched by `levelUp`. -/
structure ActorStats where
  mHp : MaxCurrentItem
  mMana : MaxCurrentItem
  deriving DecidableEq, Repr

/-- The part of a `Player` object the modelled member functions use. -/
structure Player where
  mPlayerClass : PlayerClass
  mPlayerStats : PlayerStats
  mStats : ActorStats
  deriving DecidableEq, Repr

/-- The fields of `ItemBonus` read by `meleeDamageVs`. -/
structure ItemBonus where
  minAttackDamage : Int
  maxAttackDamage : Int
  deriving DecidableEq, Repr

/-- Return values of the getters called by `checkHit` and `meleeDamageVs`
(`getArmorPenetration()`, `getCharacterLevel()`, `getItemBonus()`,
`getPercentDamageBonus()`, `getCharacterBaseDamage()`, `getDamageBonus()`);
their bodies are declared outside `player.cpp`. -/
structure Getters where
  armorPenetration : Int
  characterLevel : Int
  itemBonus : ItemBonus
  percentDamageBonus : Int
  characterBaseDamage : Int
  damageBonus : Int
  deriving DecidableEq, Repr

/-- The random stream `mWorld.mRng` over a state type `σ`:
`randomInRange s lo hi` is the value drawn and the state after the draw. -/
structure Rng (σ : Type) where
  randomInRange : σ → Int → Int → Int × σ

/-- A replayable stream for running the model: the state is the list of raw
values still to come, and a draw maps the next raw value into `[lo, hi]`. -/
def listRng : Rng (List Int) where
  randomInRange := fun s lo hi =>
    match s with
    | [] => (lo, [])
    | v :: rest => (lo + v % (hi - lo + 1), rest)

/-! ## `Player::checkHit` -/

/-- The local `toHit` of `Player::checkHit` at the `return` statement. -/
def checkHitToHit (g : Getters) (p : Player) (enemyArmor : Int) : Int :=
  let toHit := Int.tdiv p.mPlayerStats.mDexterity 2
  let toHit := i32 (toHit + g.armorPenetration)
  let toHit := i32 (toHit - enemyArmor)
  let toHit := i32 (toHit + g.characterLevel)
  let toHit := i32 (toHit + 50)
  let toHit := if p.mPlayerClass = PlayerClass.warrior then i32 (toHit + 20) else toHit
  clamp toHit 5 95

/-- The function `Player::checkHit(enemy)`: the hit / miss result and the
stream after the call. `enemyArmor` is `enemy->getArmor()`. -/
def checkHit {σ : Type} (R : Rng σ) (g : Getters) (p : Player) (enemyArmor : Int)
    (rng : σ) : Bool × σ :=
  let roll := R.randomInRange rng 0 99
  (decide (roll.1 < checkHitToHit g p enemyArmor), roll.2)

/-- The class bonus of the to-hit formula: 20 for a warrior, 0 otherwise. -/
def classBonus (c : PlayerClass) : Int :=
  if c = PlayerClass.warrior then 20 else 0

/-- The unclamped to-hit sum in exact integers:
`baseChance + attackerBonuses - defenderArmor + attackerLevel + classBonus`. -/
def toHitSum (g : Getters) (p : Player) (enemyArmor : Int) : Int :=
  50 + (Int.tdiv p.mPlayerStats.mDexterity 2 + g.armorPenetration) - enemyArmor
    + g.characterLevel + classBonus p.mPlayerClass

/-! ## `Player::meleeDamageVs` -/

/-- The function `Player::meleeDamageVs(actor)`: the damage returned and the
stream after the call. The second draw happens only for a warrior, because
`&&` evaluates its right operand only when the left one holds. -/
def meleeDamageVs {σ : Type} (R : Rng σ) (g : Getters) (p : Player) (rng : σ) : Int × σ :=
  let bonus := g.itemBonus
  let first := R.randomInRange rng bonus.minAttackDamage bonus.maxAttackDamage
  let dmg := first.1
  let dmg := i32 (dmg + Int.tdiv (i32 (dmg * g.percentDamageBonus)) 100)
  let dmg := i32 (dmg + g.characterBaseDamage)
  let dmg := i32 (dmg + g.damageBonus)
  if p.mPlayerClass = PlayerClass.warrior then
    let second := R.randomInRange first.2 0 99
    if second.1 < g.characterLevel then (i32 (dmg * 2), second.2) else (dmg, second.2)
  else (dmg, first.2)

/-- The spec's melee damage before any critical hit, in exact integers, for a
drawn value `r`: `r` scaled by `1 + percentDamageBonus / 100`, plus the
character base damage, plus the flat damage bonus. -/
def scaledDamage (g : Getters) (r : Int) : Int :=
  r + Int.tdiv (r * g.percentDamageBonus) 100 + g.characterBaseDamage + g.damageBonus

/-! ## Single-precision arithmetic

`Player::addExperience` scales the kill experience in `float`. A finite
binary32 value is a multiple of `2^-149` (the smallest subnormal), so it is
stored as that integer multiple; every operation computes the exact rational
result and rounds it to the nearest binary32 value, ties to even. Overflow to
infinity is not modelled: with 32-bit integer inputs the values of
`addExperience` stay below `2^62`. -/

/-- Number of binary digits of `n`, by halving at most `fuel` times. -/
def bitLengthAux : Nat → Nat → Nat
  | 0, _ => 0
  | fuel + 1, n => if n = 0 then 0 else bitLengthAux fuel (n / 2) + 1

/-- Number of binary digits of `n` (`0` for `0`); `n` halvings always suffice. -/
def bitLength (n : Nat) : Nat := bitLengthAux n n

/-- The integer nearest to `a / d`, ties to the even one. -/
def roundNearestEven (a d : Nat) : Nat :=
  let q := a / d
  let r := a % d
  if 2 * r < d then q
  else if d < 2 * r then q + 1
  else if q % 2 = 0 then q else q + 1

/-- Round the rational `n / d`, counted in units of `2^-149`, to the nearest
binary32 value: magnitudes below `2^24` units (subnormals and the first normal
binade) have spacing one unit, and a magnitude of `s > 24` binary digits has
spacing `2^(s - 24)`, which leaves 24 significant bits. -/
def roundF32 (n : Int) (d : Nat) : Int :=
  let a := n.natAbs
  let ulp := 2 ^ (bitLength (a / d) - 24)
  let mag : Int := ((roundNearestEven a (d * ulp) * ulp : Nat) : Int)
  if n < 0 then -mag else mag

/-- A finite binary32 value `units * 2^-149`. -/
structure F32 where
  units : Int
  deriving DecidableEq, Repr

/-- The number of units in `1.0f`. -/
def F32.unit : Nat := 2 ^ 149

/-- Conversion `(float) z` of an integer. -/
def F32.ofInt (z : Int) : F32 := ⟨roundF32 (z * F32.unit) 1⟩

/-- Rounded sum `x + y`. -/
def F32.add (x y : F32) : F32 := ⟨roundF32 (x.units + y.units) 1⟩

/-- Rounded difference `x - y`. -/
def F32.sub (x y : F32) : F32 := ⟨roundF32 (x.units - y.units) 1⟩

/-- Rounded product `x * y`. -/
def F32.mul (x y : F32) : F32 := ⟨roundF32 (x.units * y.units) F32.unit⟩

/-- Rounded quotient `x / y` for a non-zero divisor (the source divides by the
constant `10`). -/
def F32.div (x y : F32) : F32 :=
  ⟨roundF32 (if y.units < 0 then -(x.units * F32.unit) else x.units * F32.unit)
    y.units.natAbs⟩

/-- Conversion of a `float` to `int32_t`: truncation toward zero. A value
outside the `int32_t` range has no defined result in C++; the model returns
`INT32_MIN`, as the x86-64 conversion instruction does. -/
def F32.toInt32 (x : F32) : Int :=
  let t := Int.tdiv x.units F32.unit
  if Fits32 t then t else -2147483648

/-! ## `Player::addExperience` and `Player::levelUp` -/

/-- The values `getKillExp()` and `getMonsterStats().level` of a `Monster`. -/
structure Monster where
  killExp : Int
  level : Int
  deriving DecidableEq, Repr

/-- The members `maxExp()` and `expToLevel(exp)` of `mPlayerStats`, which read
an experience table declared outside `player.cpp`. -/
structure ExpTable where
  maxExp : Int
  expToLevel : Int → Int

/-- Modelled from the spec: `Actor::heal()` is not in `player.cpp`; it sets
the current HP to the maximum HP. -/
def heal (p : Player) : Player :=
  { p with mStats := { p.mStats with mHp := { p.mStats.mHp with current := p.mStats.mHp.max } } }

/-- Modelled from the spec: `Actor::restoreMana()` is not in `player.cpp`; it
sets the current mana to the maximum mana. -/
def restoreMana (p : Player) : Player :=
  { p with mStats := { p.mStats with mMana := { p.mStats.mMana with current := p.mStats.mMana.max } } }

/-- The function `Player::levelUp(newLevel)`. -/
def levelUp (p : Player) (newLevel : Int) : Player :=
  let p := { p with mPlayerStats := { p.mPlayerStats with mLevel := newLevel } }
  let p :=
    match p.mPlayerClass with
    | PlayerClass.warrior =>
      { p with mStats := { p.mStats with
          mHp := { p.mStats.mHp with max := i32 (p.mStats.mHp.max + 2) },
          mMana := { p.mStats.mMana with max := i32 (p.mStats.mMana.max + 1) } } }
    | PlayerClass.rogue =>
      { p with mStats := { p.mStats with
          mHp := { p.mStats.mHp with max := i32 (p.mStats.mHp.max + 2) },
          mMana := { p.mStats.mMana with max := i32 (p.mStats.mMana.max + 2) } } }
    | PlayerClass.sorcerer =>
      { p with mStats := { p.mStats with
          mHp := { p.mStats.mHp with max := i32 (p.mStats.mHp.max + 1) },
          mMana := { p.mStats.mMana with max := i32 (p.mStats.mMana.max + 2) } } }
  restoreMana (heal p)

/-- The statement `exp *= 1 + ((float)enemy.getMonsterStats().level - mPlayerStats.mLevel) / 10;`
for `exp = k`, monster level `M` and player level `L`: the integer operands are
converted to `float`, every operation is rounded to binary32, and the product
is converted back to `int32_t`. -/
def scaledKillExp (k M L : Int) : Int :=
  F32.toInt32
    (F32.mul (F32.ofInt k)
      (F32.add (F32.ofInt 1)
        (F32.div (F32.sub (F32.ofInt M) (F32.ofInt L)) (F32.ofInt 10))))

/-- The experience gained for a kill: lines 381-384 of `addExperience`. -/
def gainedExp (p : Player) (enemy : Monster) : Int :=
  let exp := enemy.killExp
  let exp := scaledKillExp exp enemy.level p.mPlayerStats.mLevel
  max 0 exp

/-- The player after `mPlayerStats.mExp = std::min(mPlayerStats.mExp + exp, mPlayerStats.maxExp())`. -/
def creditExp (T : ExpTable) (p : Player) (enemy : Monster) : Player :=
  let s := i32 (p.mPlayerStats.mExp + gainedExp p enemy)
  { p with mPlayerStats := { p.mPlayerStats with mExp := if T.maxExp < s then T.maxExp else s } }

/-- The loop `for (int32_t i = ...; i < newLevel; i++) levelUp(newLevel);` run
from counter value `i` on player `p` for at most `fuel` iterations: the list of
player states after each call of `levelUp`, in order. The counter stays below
`newLevel`, so `i + 1` cannot overflow. -/
def levelUpLoop (newLevel : Int) : Nat → Int → Player → List Player
  | 0, _, _ => []
  | fuel + 1, i, p =>
    if i < newLevel then
      levelUp p newLevel :: levelUpLoop newLevel fuel (i + 1) (levelUp p newLevel)
    else []

/-- The local `newLevel` of `addExperience`; `expToLevel` returns a level,
already an `int32_t`. -/
def addExperienceNewLevel (T : ExpTable) (p : Player) (enemy : Monster) : Int :=
  T.expToLevel (creditExp T p enemy).mPlayerStats.mExp

/-- The player state once the calls in `calls` have been made, starting from `p`:
the last state of the list, or `p` when no call was made. -/
def lastState (p : Player) : List Player → Player
  | [] => p
  | q :: rest => lastState q rest

/-- The successive player states after each `levelUp` call made by
`addExperience`; the counter starts at the old level, so
`newLevel - mLevel` iterations exhaust the loop. -/
def addExperienceLevelUps (T : ExpTable) (p : Player) (enemy : Monster) : List Player :=
  let p1 := creditExp T p enemy
  let newLevel := addExperienceNewLevel T p enemy
  levelUpLoop newLevel (newLevel - p1.mPlayerStats.mLevel).toNat p1.mPlayerStats.mLevel p1

/-- The function `Player::addExperience(enemy)`: the player after the call. -/
def addExperience (T : ExpTable) (p : Player) (enemy : Monster) : Player :=
  lastState (creditExp T p enemy) (addExperienceLevelUps T p enemy)

/-- The spec's scaled gain in exact arithmetic, truncated to an integer:
`k * (1 + (M - L) / 10) = k * (10 + (M - L)) / 10`. -/
def exactScaledExp (k M L : Int) : Int :=
  Int.tdiv (k * (10 + (M - L))) 10

/-- The spec's per-level maximum-HP growth of a class. -/
def hpGrowth : PlayerClass → Int
  | PlayerClass.warrior => 2
  | PlayerClass.rogue => 2
  | PlayerClass.sorcerer => 1

/-- The spec's per-level maximum-mana growth of a class. -/
def manaGrowth : PlayerClass → Int
  | PlayerClass.warrior => 1
  | PlayerClass.rogue => 2
  | PlayerClass.sorcerer => 2

/-! ## Runs of combat calls over the shared stream -/

/-- The stream `R` together with a log of the bounds of every draw made so far,
oldest first. -/
def loggedRng {σ : Type} (R : Rng σ) : Rng (σ × List (Int × Int)) where
  randomInRange := fun s lo hi =>
    ((R.randomInRange s.1 lo hi).1, ((R.randomInRange s.1 lo hi).2, s.2 ++ [(lo, hi)]))

/-- One call of a combat function, with the player state, the getter values and
(for `checkHit`) the defender's armor at the time of the call. -/
inductive CombatCall where
  | checkHit (g : Getters) (p : Player) (enemyArmor : Int)
  | meleeDamageVs (g : Getters) (p : Player)
  deriving DecidableEq, Repr

/-- The value returned by one combat call. -/
inductive CombatOutcome where
  | hit (b : Bool)
  | damage (d : Int)
  deriving DecidableEq, Repr

/-- A run: the calls are made in order on the shared stream; the result is the
sequence of outcomes and the stream after the last call. -/
def runCalls {σ : Type} (R : Rng σ) : List CombatCall → σ → List CombatOutcome × σ
  | [], s => ([], s)
  | CombatCall.checkHit g p enemyArmor :: rest, s =>
    let r := checkHit R g p enemyArmor s
    let t := runCalls R rest r.2
    (CombatOutcome.hit r.1 :: t.1, t.2)
  | CombatCall.meleeDamageVs g p :: rest, s =>
    let r := meleeDamageVs R g p s
    let t := runCalls R rest r.2
    (CombatOutcome.damage r.1 :: t.1, t.2)

/-! ## `Player::setActiveSpellNumber` and `Player::castActiveSpell` -/

/-- The enumerators of `MissileId` that occur in `player.cpp`. -/
inductive MissileId where
  | arrow
  | firebolt
  | firewall
  | manashield
  | farrow
  | larrow
  deriving DecidableEq, Repr

/-- The static vector `mImplementedMissiles`. -/
def mImplementedMissiles : List MissileId :=
  [MissileId.arrow, MissileId.firebolt, MissileId.firewall, MissileId.manashield,
    MissileId.farrow, MissileId.larrow]

/-- The function `Player::setActiveSpellNumber(spellNumber)` on the only member
it touches, the `uint32_t mActiveMissileIndex`: the new value of the index. The
increment wraps modulo `2^32`. -/
def setActiveSpellNumber (mActiveMissileIndex : Nat) (spellNumber : Int) : Nat :=
  let _ := spellNumber
  let mActiveMissileIndex := (mActiveMissileIndex + 1) % 4294967296
  if mImplementedMissiles.length ≤ mActiveMissileIndex then 0 else mActiveMissileIndex

/-- The function `Player::castActiveSpell(targetPoint)`: the missile passed to
`activateMissile` and whether the arrow sound is played; `none` when the index
is outside the vector, where `operator[]` has no defined result. -/
def castActiveSpell (mActiveMissileIndex : Nat) : Option (MissileId × Bool) :=
  match mImplementedMissiles[mActiveMissileIndex]? with
  | none => none
  | some missileId =>
    match missileId with
    | MissileId.arrow => some (missileId, true)
    | MissileId.farrow => some (missileId, true)
    | MissileId.larrow => some (missileId, true)
    | _ => some (missileId, false)

/-! ## `Player::updateSprites` -/

/-- The enumerators of `ItemType` named in `player.cpp`; `other` stands for
every remaining enumerator. -/
inductive ItemType where
  | sword
  | axe
  | bow
  | mace
  | shield
  | lightArmor
  | mediumArmor
  | heavyArmor
  | staff
  | other (code : Int)
  deriving DecidableEq, Repr

/-- The enumerator `ItemEquipType::oneHanded`; `other` stands for every
remaining enumerator. -/
inductive ItemEquipType where
  | oneHanded
  | other (code : Int)
  deriving DecidableEq, Repr

/-- The results of `isEmpty()`, `getType()` and `getEquipLoc()` of an `Item`. -/
structure Item where
  isEmpty : Bool
  type : ItemType
  equipLoc : ItemEquipType
  deriving DecidableEq, Repr

/-- The slots of `mInventory` read by `updateSprites`: `getBody()`,
`getLeftHand()` and `getRightHand()`. -/
structure Inventory where
  body : Item
  leftHand : Item
  rightHand : Item
  deriving DecidableEq, Repr

/-- The local `armour` of `updateSprites` (lines 182-206). -/
def updateSpritesArmour (inv : Inventory) : String :=
  if !inv.body.isEmpty then
    match inv.body.type with
    | ItemType.heavyArmor => "h"
    | ItemType.mediumArmor => "m"
    | _ => "l"
  else "l"

/-- The local `weapon` of `updateSprites` after lines 207-278, before the
assertion of line 279. -/
def updateSpritesWeapon (inv : Inventory) : String :=
  let left := inv.leftHand
  let right := inv.rightHand
  if left.isEmpty && right.isEmpty then "n"
  else if (left.isEmpty && !right.isEmpty) || (!left.isEmpty && right.isEmpty) then
    let hand := if !left.isEmpty then left else right
    match hand.type with
    | ItemType.axe => if hand.equipLoc = ItemEquipType.oneHanded then "s" else "a"
    | ItemType.mace => "m"
    | ItemType.bow => "b"
    | ItemType.shield => "u"
    | ItemType.sword => "s"
    | _ => "n"
  else if !left.isEmpty && !right.isEmpty then
    if (left.type = ItemType.sword ∧ right.type = ItemType.shield) ∨
        (left.type = ItemType.shield ∧ right.type = ItemType.sword) then "d"
    else if left.type = ItemType.bow ∧ right.type = ItemType.bow then "b"
    else if left.type = ItemType.axe ∧ right.type = ItemType.axe then "a"
    else if left.type = ItemType.staff ∧ right.type = ItemType.staff then "t"
    else if left.type = ItemType.mace ∨ right.type = ItemType.mace then "h"
    else ""
  else ""

/-- The codes `(armourCode, weaponCode)` with which `updateSprites` builds its
sprite paths; `none` when `release_assert(!weapon.empty())` fails, which is
checked only in the branch where both hands hold an item. -/
def updateSprites (inv : Inventory) : Option (String × String) :=
  let armour := updateSpritesArmour inv
  let weapon := updateSpritesWeapon inv
  if !inv.leftHand.isEmpty && !inv.rightHand.isEmpty then
    if weapon = "" then none else some (armour, weapon)
  else some (armour, weapon)

/-! ## Sample data -/

/-- A level-1 player of the given class with dexterity 30, no experience,
70 / 10 maximum HP / mana and 12 / 3 current. -/
def samplePlayer (c : PlayerClass) : Player :=
  { mPlayerClass := c,
    mPlayerStats := { mDexterity := 30, mLevel := 1, mExp := 0 },
    mStats := { mHp := { max := 70, current := 12 }, mMana := { max := 10, current := 3 } } }

/-- Getter values for a character of level 1 with a `[10, 20]` damage range,
no percent bonus, base damage 5 and flat damage bonus 3. -/
def sampleGetters : Getters :=
  { armorPenetration := 0, characterLevel := 1,
    itemBonus := { minAttackDamage := 10, maxAttackDamage := 20 },
    percentDamageBonus := 0, characterBaseDamage := 5, damageBonus := 3 }

/-- Getter values with a `[0, 0]` damage range and a flat damage bonus of `-1`. -/
def cursedGetters : Getters :=
  { armorPenetration := 0, characterLevel := 1,
    itemBonus := { minAttackDamage := 0, maxAttackDamage := 0 },
    percentDamageBonus := 0, characterBaseDamage := 0, damageBonus := -1 }

/-- An experience table with ceiling 1000000 and thresholds 100 and 150:
level 1 below 100 experience, level 2 below 150, level 3 from 150 on. -/
def sampleTable : ExpTable :=
  { maxExp := 1000000,
    expToLevel := fun e => if e < 100 then 1 else if e < 150 then 2 else 3 }

/-- A level-20 rogue with 500 experience, 90 / 40 maximum HP / mana and 50 / 20
current. -/
def veteranPlayer : Player :=
  { mPlayerClass := PlayerClass.rogue,
    mPlayerStats := { mDexterity := 40, mLevel := 20, mExp := 500 },
    mStats := { mHp := { max := 90, current := 50 }, mMana := { max := 40, current := 20 } } }

set_option maxRecDepth 100000

/-! ## Lemmas on machine integers -/

theorem i32_of_fits {x : Int} (h : Fits32 x) : i32 x = x := by
  unfold Fits32 at h
  unfold i32
  omega

theorem i32_i32_add (a b : Int) : i32 (i32 a + b) = i32 (a + b) := by
  unfold i32; omega

theorem i32_i32_sub (a b : Int) : i32 (i32 a - b) = i32 (a - b) := by
  unfold i32; omega

theorem i32_fits (x : Int) : Fits32 (i32 x) := by
  unfold Fits32 i32; omega

theorem clamp_bounds (v lo hi : Int) (h : lo ≤ hi) :
    lo ≤ clamp v lo hi ∧ clamp v lo hi ≤ hi := by
  unfold clamp
  split
  · exact ⟨le_refl _, h⟩
  · split <;> constructor <;> omega

theorem checkHitToHit_eq (g : Getters) (p : Player) (enemyArmor : Int) :
    checkHitToHit g p enemyArmor = clamp (i32 (toHitSum g p enemyArmor)) 5 95 := by
  unfold checkHitToHit toHitSum classBonus
  by_cases hc : p.mPlayerClass = PlayerClass.warrior
  · simp only [hc, if_true, i32_i32_add, i32_i32_sub]
    congr 2
    ring
  · simp only [hc, if_false, i32_i32_add, i32_i32_sub]
    congr 2
    ring

/-! ## Claims about `Player::checkHit` -/

/-- C1: for every player (any dexterity, armor penetration, character level,
class) and every enemy armor value, the to-hit chance that `checkHit` compares
the roll against lies in `[5, 95]`, and that comparison is the result. -/
theorem checkHit_chance_in_5_95 {σ : Type} (R : Rng σ) (g : Getters) (p : Player)
    (enemyArmor : Int) (rng : σ) :
    5 ≤ checkHitToHit g p enemyArmor ∧ checkHitToHit g p enemyArmor ≤ 95 ∧
      (checkHit R g p enemyArmor rng).1
        = decide ((R.randomInRange rng 0 99).1 < checkHitToHit g p enemyArmor) := by
  refine ⟨?_, ?_, rfl⟩
  · exact (clamp_bounds _ 5 95 (by decide)).1
  · exact (clamp_bounds _ 5 95 (by decide)).2

/-- C2: `checkHit` returns true iff `roll < clamp(baseChance + attackerBonuses -
defenderArmor + attackerLevel + classBonus, 5, 95)` with `baseChance = 50`,
`attackerBonuses = dexterity / 2 + armor penetration`, and `classBonus = 20` for
a warrior and `0` otherwise. The sum is taken in the `int32_t` arithmetic of the
code; whenever it is representable this is the exact integer formula. -/
theorem checkHit_iff_roll_lt_clamped_sum {σ : Type} (R : Rng σ) (g : Getters) (p : Player)
    (enemyArmor : Int) (rng : σ) :
    ((checkHit R g p enemyArmor rng).1 = true ↔
        (R.randomInRange rng 0 99).1 < clamp (i32 (toHitSum g p enemyArmor)) 5 95) ∧
      (Fits32 (toHitSum g p enemyArmor) →
        ((checkHit R g p enemyArmor rng).1 = true ↔
          (R.randomInRange rng 0 99).1 <
            clamp (50 + (Int.tdiv p.mPlayerStats.mDexterity 2 + g.armorPenetration)
              - enemyArmor + g.characterLevel
              + (if p.mPlayerClass = PlayerClass.warrior then 20 else 0)) 5 95)) := by
  have h1 : ((checkHit R g p enemyArmor rng).1 = true ↔
      (R.randomInRange rng 0 99).1 < clamp (i32 (toHitSum g p enemyArmor)) 5 95) := by
    unfold checkHit
    simp only [decide_eq_true_eq, checkHitToHit_eq]
  refine ⟨h1, fun hfit => ?_⟩
  rw [h1, i32_of_fits hfit]
  rfl

/-! ## Claims about `Player::meleeDamageVs` -/

theorem tdiv_of_pos_den (a b : Int) (hb : 0 < b) :
    Int.tdiv a b = if 0 ≤ a then a / b else -((-a) / b) := by
  split
  · next h => exact Int.tdiv_eq_ediv h (le_of_lt hb)
  · next h =>
    have h1 : Int.tdiv (-a) b = (-a) / b := Int.tdiv_eq_ediv (by omega) (le_of_lt hb)
    rw [← h1, Int.neg_tdiv, neg_neg]

/-- The damage of `meleeDamageVs` before the critical-hit test is the wrapped
sum of the scaled draw, the base damage and the flat bonus. -/
theorem meleeDamageVs_nonwarrior_eq {σ : Type} (R : Rng σ) (g : Getters) (p : Player)
    (rng : σ) (hc : p.mPlayerClass ≠ PlayerClass.warrior) :
    meleeDamageVs R g p rng =
      (i32 ((R.randomInRange rng g.itemBonus.minAttackDamage g.itemBonus.maxAttackDamage).1
          + Int.tdiv (i32 ((R.randomInRange rng g.itemBonus.minAttackDamage
              g.itemBonus.maxAttackDamage).1 * g.percentDamageBonus)) 100
          + g.characterBaseDamage + g.damageBonus),
        (R.randomInRange rng g.itemBonus.minAttackDamage g.itemBonus.maxAttackDamage).2) := by
  unfold meleeDamageVs
  simp only [hc, if_false, i32_i32_add]

theorem meleeDamageVs_warrior_eq {σ : Type} (R : Rng σ) (g : Getters) (p q : Player)
    (rng : σ) (hp : p.mPlayerClass = PlayerClass.warrior)
    (hq : q.mPlayerClass ≠ PlayerClass.warrior) :
    meleeDamageVs R g p rng =
      (if (R.randomInRange (meleeDamageVs R g q rng).2 0 99).1 < g.characterLevel
        then i32 ((meleeDamageVs R g q rng).1 * 2) else (meleeDamageVs R g q rng).1,
       (R.randomInRange (meleeDamageVs R g q rng).2 0 99).2) := by
  unfold meleeDamageVs
  simp only [hp, hq, if_true, if_false]
  split <;> rfl

/-- C3 (as stated, refuted): a rogue with damage range `[0, 0]`, no percent
bonus, base damage 0 and a flat damage bonus of `-1` deals `-1` damage, so the
value returned by `meleeDamageVs` is not always `≥ 0`. -/
theorem meleeDamageVs_negative_result :
    (meleeDamageVs listRng cursedGetters (samplePlayer PlayerClass.rogue) [0]).1 = -1 ∧
      ¬ (0 ≤ (meleeDamageVs listRng cursedGetters (samplePlayer PlayerClass.rogue) [0]).1) := by
  decide

/-- C3 (amended): `meleeDamageVs` applies no clamp; its result is `≥ 0` whenever
the drawn damage `r` is `≥ 0`, the percent damage bonus is `≥ -100`, base damage
plus flat bonus is `≥ 0`, and `r * percentDamageBonus` and twice the exact total
are representable in `int32_t`. -/
theorem meleeDamageVs_nonneg_of_nonneg_inputs {σ : Type} (R : Rng σ) (g : Getters)
    (p : Player) (rng : σ)
    (hr : 0 ≤ (R.randomInRange rng g.itemBonus.minAttackDamage g.itemBonus.maxAttackDamage).1)
    (hpct : -100 ≤ g.percentDamageBonus)
    (hadd : 0 ≤ g.characterBaseDamage + g.damageBonus)
    (hmul : Fits32 ((R.randomInRange rng g.itemBonus.minAttackDamage
      g.itemBonus.maxAttackDamage).1 * g.percentDamageBonus))
    (htot : Fits32 (2 * scaledDamage g
      (R.randomInRange rng g.itemBonus.minAttackDamage g.itemBonus.maxAttackDamage).1)) :
    0 ≤ (meleeDamageVs R g p rng).1 := by
  have key : ∀ q : Player, q.mPlayerClass ≠ PlayerClass.warrior →
      (meleeDamageVs R g q rng).1 = scaledDamage g
        (R.randomInRange rng g.itemBonus.minAttackDamage g.itemBonus.maxAttackDamage).1 ∧
      0 ≤ scaledDamage g
        (R.randomInRange rng g.itemBonus.minAttackDamage g.itemBonus.maxAttackDamage).1 := by
    intro q hq
    rw [meleeDamageVs_nonwarrior_eq R g q rng hq]
    unfold scaledDamage at htot ⊢
    generalize (R.randomInRange rng g.itemBonus.minAttackDamage
      g.itemBonus.maxAttackDamage).1 = r at hr hmul htot ⊢
    have hlow : -(100 * r) ≤ r * g.percentDamageBonus := by nlinarith
    rw [i32_of_fits hmul]
    have ht : -r ≤ Int.tdiv (r * g.percentDamageBonus) 100 := by
      rw [tdiv_of_pos_den _ 100 (by decide)]
      split <;> omega
    have hnn : 0 ≤ r + Int.tdiv (r * g.percentDamageBonus) 100 + g.characterBaseDamage
        + g.damageBonus := by omega
    refine ⟨?_, hnn⟩
    apply i32_of_fits
    unfold Fits32 at htot ⊢
    omega
  by_cases hc : p.mPlayerClass = PlayerClass.warrior
  · have hq : (samplePlayer PlayerClass.rogue).mPlayerClass ≠ PlayerClass.warrior := by decide
    obtain ⟨h1, h2⟩ := key _ hq
    rw [meleeDamageVs_warrior_eq R g p _ rng hc hq, h1]
    dsimp only
    split
    · rw [i32_of_fits (by unfold Fits32 at htot ⊢; omega)]
      omega
    · exact h2
  · obtain ⟨h1, h2⟩ := key p hc
    rw [h1]; exact h2

/-- Witness for C3 (amended): a warrior with the sample getters and draws 4, 0. -/
theorem meleeDamageVs_nonneg_of_nonneg_inputs_witness :
    0 ≤ (meleeDamageVs listRng sampleGetters (samplePlayer PlayerClass.warrior) [4, 0]).1 :=
  meleeDamageVs_nonneg_of_nonneg_inputs listRng sampleGetters
    (samplePlayer PlayerClass.warrior) [4, 0] (by decide) (by decide) (by decide)
    (by decide) (by decide)

/-- Witness for C2: a warrior with dexterity 30 against armor 10 and roll 42. -/
theorem checkHit_iff_roll_lt_clamped_sum_witness :
    ((checkHit listRng sampleGetters (samplePlayer PlayerClass.warrior) 10 [42]).1 = true ↔
      (listRng.randomInRange [42] 0 99).1 <
        clamp (50 + (Int.tdiv (samplePlayer PlayerClass.warrior).mPlayerStats.mDexterity 2
            + sampleGetters.armorPenetration) - 10 + sampleGetters.characterLevel
          + (if (samplePlayer PlayerClass.warrior).mPlayerClass = PlayerClass.warrior
              then 20 else 0)) 5 95) :=
  (checkHit_iff_roll_lt_clamped_sum listRng sampleGetters (samplePlayer PlayerClass.warrior)
    10 [42]).2 (by decide)

/-- C4: for every non-warrior player `meleeDamageVs` draws one value `r` from
`[minAttackDamage, maxAttackDamage]` and returns `r` scaled by
`1 + percentDamageBonus / 100`, plus the base damage, plus the flat bonus:
`r + (r * percentDamageBonus) / 100 + baseDamage + damageBonus` in the
`int32_t` arithmetic of the code, which is the exact integer value whenever the
product and the total are representable. -/
theorem meleeDamageVs_nonwarrior_formula {σ : Type} (R : Rng σ) (g : Getters) (p : Player)
    (rng : σ) (hc : p.mPlayerClass ≠ PlayerClass.warrior) :
    meleeDamageVs R g p rng =
        (i32 ((R.randomInRange rng g.itemBonus.minAttackDamage g.itemBonus.maxAttackDamage).1
            + Int.tdiv (i32 ((R.randomInRange rng g.itemBonus.minAttackDamage
                g.itemBonus.maxAttackDamage).1 * g.percentDamageBonus)) 100
            + g.characterBaseDamage + g.damageBonus),
          (R.randomInRange rng g.itemBonus.minAttackDamage g.itemBonus.maxAttackDamage).2) ∧
      (Fits32 ((R.randomInRange rng g.itemBonus.minAttackDamage
            g.itemBonus.maxAttackDamage).1 * g.percentDamageBonus) →
        Fits32 (scaledDamage g (R.randomInRange rng g.itemBonus.minAttackDamage
            g.itemBonus.maxAttackDamage).1) →
        (meleeDamageVs R g p rng).1 =
          (R.randomInRange rng g.itemBonus.minAttackDamage g.itemBonus.maxAttackDamage).1
            + Int.tdiv ((R.randomInRange rng g.itemBonus.minAttackDamage
                g.itemBonus.maxAttackDamage).1 * g.percentDamageBonus) 100
            + g.characterBaseDamage + g.damageBonus) := by
  refine ⟨meleeDamageVs_nonwarrior_eq R g p rng hc, fun hmul htot => ?_⟩
  rw [meleeDamageVs_nonwarrior_eq R g p rng hc]
  unfold scaledDamage at htot
  rw [i32_of_fits hmul, i32_of_fits htot]

/-- Witness for C4: a sorcerer with the sample getters and first raw draw 4,
which gives `r = 14`. -/
theorem meleeDamageVs_nonwarrior_formula_witness :
    (meleeDamageVs listRng sampleGetters (samplePlayer PlayerClass.sorcerer) [4]).1 =
      (listRng.randomInRange [4] sampleGetters.itemBonus.minAttackDamage
          sampleGetters.itemBonus.maxAttackDamage).1
        + Int.tdiv ((listRng.randomInRange [4] sampleGetters.itemBonus.minAttackDamage
            sampleGetters.itemBonus.maxAttackDamage).1 * sampleGetters.percentDamageBonus) 100
        + sampleGetters.characterBaseDamage + sampleGetters.damageBonus :=
  (meleeDamageVs_nonwarrior_formula listRng sampleGetters (samplePlayer PlayerClass.sorcerer)
    [4] (by decide)).2 (by decide) (by decide)

/-- C5: for the same getter values and the same first draw, a warrior's
`meleeDamageVs` is twice (in `int32_t` arithmetic; exactly twice when
representable) the result of a non-warrior when the second draw from
`randomInRange(0, 99)` is below the character level, and equal to it otherwise.
A non-warrior's result and stream position are fixed by the first draw alone:
no second draw is made, so a stream that differs after the first draw gives the
same damage. -/
theorem meleeDamageVs_warrior_crit_doubles {σ : Type} (R : Rng σ) (g : Getters)
    (p q : Player) (rng : σ) (hp : p.mPlayerClass = PlayerClass.warrior)
    (hq : q.mPlayerClass ≠ PlayerClass.warrior) :
    ((R.randomInRange (meleeDamageVs R g q rng).2 0 99).1 < g.characterLevel →
        (meleeDamageVs R g p rng).1 = i32 (2 * (meleeDamageVs R g q rng).1) ∧
        (Fits32 (2 * (meleeDamageVs R g q rng).1) →
          (meleeDamageVs R g p rng).1 = 2 * (meleeDamageVs R g q rng).1)) ∧
      (¬ (R.randomInRange (meleeDamageVs R g q rng).2 0 99).1 < g.characterLevel →
        (meleeDamageVs R g p rng).1 = (meleeDamageVs R g q rng).1) ∧
      (meleeDamageVs R g q rng).2 =
        (R.randomInRange rng g.itemBonus.minAttackDamage g.itemBonus.maxAttackDamage).2 ∧
      (∀ R2 : Rng σ,
        R2.randomInRange rng g.itemBonus.minAttackDamage g.itemBonus.maxAttackDamage
          = R.randomInRange rng g.itemBonus.minAttackDamage g.itemBonus.maxAttackDamage →
        meleeDamageVs R2 g q rng = meleeDamageVs R g q rng) := by
  refine ⟨fun h => ?_, fun h => ?_, ?_, fun R2 h2 => ?_⟩
  · have e : (meleeDamageVs R g p rng).1 = i32 (2 * (meleeDamageVs R g q rng).1) := by
      rw [meleeDamageVs_warrior_eq R g p q rng hp hq]
      simp only [h, if_true, mul_comm]
    exact ⟨e, fun hf => by rw [e, i32_of_fits hf]⟩
  · rw [meleeDamageVs_warrior_eq R g p q rng hp hq]
    simp only [h, if_false]
  · rw [meleeDamageVs_nonwarrior_eq R g q rng hq]
  · rw [meleeDamageVs_nonwarrior_eq R g q rng hq, meleeDamageVs_nonwarrior_eq R2 g q rng hq, h2]

/-- Witness for C5: warrior against rogue at character level 1 with raw draws
4 and 0, so the second draw `0` is below the level and the damage doubles. -/
theorem meleeDamageVs_warrior_crit_doubles_witness :
    (meleeDamageVs listRng sampleGetters (samplePlayer PlayerClass.warrior) [4, 0]).1 =
      2 * (meleeDamageVs listRng sampleGetters (samplePlayer PlayerClass.rogue) [4, 0]).1 :=
  ((meleeDamageVs_warrior_crit_doubles listRng sampleGetters
    (samplePlayer PlayerClass.warrior) (samplePlayer PlayerClass.rogue) [4, 0]
    (by decide) (by decide)).1 (by decide)).2 (by decide)

/-- C6: for a non-warrior player with melee damage range `[10, 20]`, 0% damage
bonus, character base damage 5 and flat damage bonus 3, and every draw `r` in
`[10, 20]`, `meleeDamageVs` returns `r + 5 + 3`, which lies in `[18, 28]`. -/
theorem meleeDamageVs_example_18_28 {σ : Type} (R : Rng σ) (g : Getters) (p : Player)
    (rng : σ) (hc : p.mPlayerClass ≠ PlayerClass.warrior)
    (hmin : g.itemBonus.minAttackDamage = 10) (hmax : g.itemBonus.maxAttackDamage = 20)
    (hpct : g.percentDamageBonus = 0) (hbase : g.characterBaseDamage = 5)
    (hbonus : g.damageBonus = 3)
    (hlo : 10 ≤ (R.randomInRange rng 10 20).1) (hhi : (R.randomInRange rng 10 20).1 ≤ 20) :
    (meleeDamageVs R g p rng).1 = (R.randomInRange rng 10 20).1 + 5 + 3 ∧
      18 ≤ (meleeDamageVs R g p rng).1 ∧ (meleeDamageVs R g p rng).1 ≤ 28 := by
  have e : (meleeDamageVs R g p rng).1 = (R.randomInRange rng 10 20).1 + 5 + 3 := by
    rw [meleeDamageVs_nonwarrior_eq R g p rng hc, hmin, hmax, hpct, hbase, hbonus]
    simp only [mul_zero]
    have h0 : Int.tdiv (i32 0) 100 = 0 := by decide
    rw [h0, add_zero]
    apply i32_of_fits
    unfold Fits32
    omega
  rw [e]
  omega

/-- Witness for C6: a rogue with the sample getters and raw draw 4 (`r = 14`). -/
theorem meleeDamageVs_example_18_28_witness :
    (meleeDamageVs listRng sampleGetters (samplePlayer PlayerClass.rogue) [4]).1
        = (listRng.randomInRange [4] 10 20).1 + 5 + 3 ∧
      18 ≤ (meleeDamageVs listRng sampleGetters (samplePlayer PlayerClass.rogue) [4]).1 ∧
      (meleeDamageVs listRng sampleGetters (samplePlayer PlayerClass.rogue) [4]).1 ≤ 28 :=
  meleeDamageVs_example_18_28 listRng sampleGetters (samplePlayer PlayerClass.rogue) [4]
    (by decide) rfl rfl rfl rfl rfl (by decide) (by decide)

/-! ## Lemmas on single-precision rounding -/

theorem bitLengthAux_le (fuel : Nat) : ∀ n t : Nat, n < 2 ^ t → bitLengthAux fuel n ≤ t := by
  induction fuel with
  | zero => intro n t _; simp [bitLengthAux]
  | succ f ih =>
    intro n t h
    unfold bitLengthAux
    split
    · omega
    · next hn =>
      cases t with
      | zero => simp at h; omega
      | succ t =>
        have : n / 2 < 2 ^ t := by
          rw [pow_succ] at h
          omega
        have := ih (n / 2) t this
        omega

theorem bitLengthAux_gt (fuel : Nat) : ∀ n t : Nat, n ≤ fuel → 2 ^ t ≤ n →
    t < bitLengthAux fuel n := by
  induction fuel with
  | zero =>
    intro n t h1 h2
    have : 0 < 2 ^ t := Nat.two_pow_pos t
    omega
  | succ f ih =>
    intro n t h1 h2
    have hpos : 0 < 2 ^ t := Nat.two_pow_pos t
    unfold bitLengthAux
    split
    · omega
    · cases t with
      | zero => omega
      | succ t =>
        have h3 : 2 ^ t ≤ n / 2 := by
          rw [pow_succ] at h2
          omega
        have := ih (n / 2) t (by omega) h3
        omega

/-- The function `bitLength` is the number of binary digits. -/
theorem bitLength_le_iff (n t : Nat) : bitLength n ≤ t ↔ n < 2 ^ t := by
  constructor
  · intro h
    by_contra hc
    have := bitLengthAux_gt n n t (le_refl _) (by omega)
    unfold bitLength at h
    omega
  · exact bitLengthAux_le n n t

theorem roundNearestEven_mul (q d : Nat) (hd : 0 < d) : roundNearestEven (q * d) d = q := by
  unfold roundNearestEven
  simp [Nat.mul_div_cancel _ hd, hd]

theorem ulp_dvd_of_le_two_pow_24 (c : Nat) (hc : c ≤ 2 ^ 24) :
    2 ^ (bitLength (c * 2 ^ 149) - 24) ∣ c * 2 ^ 149 := by
  have hlt : c * 2 ^ 149 < 2 ^ 174 := by
    have : (2:Nat) ^ 174 = 2 ^ 25 * 2 ^ 149 := by norm_num
    rw [this]
    exact Nat.mul_lt_mul_of_lt_of_le (by omega) (le_refl _) (Nat.two_pow_pos _)
  have hb := (bitLength_le_iff _ 174).2 hlt
  have h2 : bitLength (c * 2 ^ 149) ≤ 173 ∨ c = 2 ^ 24 := by
    by_cases hne : c = 2 ^ 24
    · exact Or.inr hne
    · left
      rw [bitLength_le_iff]
      have : (2:Nat) ^ 173 = 2 ^ 24 * 2 ^ 149 := by norm_num
      rw [this]
      exact Nat.mul_lt_mul_of_lt_of_le (by omega) (le_refl _) (Nat.two_pow_pos _)
  generalize bitLength (c * 2 ^ 149) = B at hb h2 ⊢
  rcases h2 with h | h
  · exact Dvd.dvd.mul_left (Nat.pow_dvd_pow 2 (by omega)) _
  · rw [h, ← pow_add]
    exact Nat.pow_dvd_pow 2 (by omega)

/-- An integer of magnitude at most `2^24`, scaled to units, is a binary32
value: rounding `z * d / d` returns it unchanged. -/
theorem roundF32_exact (z : Int) (d : Nat) (hd : 0 < d) (hz : z.natAbs ≤ 2 ^ 24) :
    roundF32 (z * (2 ^ 149 : Nat) * d) d = z * (2 ^ 149 : Nat) := by
  have hw : (z * ((2 ^ 149 : Nat) : Int) * (d : Int)).natAbs = z.natAbs * 2 ^ 149 * d := by
    rw [Int.natAbs_mul, Int.natAbs_mul, Int.natAbs_ofNat, Int.natAbs_ofNat]
  obtain ⟨m, hm⟩ := ulp_dvd_of_le_two_pow_24 z.natAbs hz
  unfold roundF32
  simp only [hw, Nat.mul_div_cancel _ hd]
  generalize bitLength (z.natAbs * 2 ^ 149) - 24 = e at hm ⊢
  have hupos : 0 < d * 2 ^ e := Nat.mul_pos hd (Nat.two_pow_pos _)
  have hre : z.natAbs * 2 ^ 149 * d = m * (d * 2 ^ e) := by
    rw [hm]; ring
  rw [hre, roundNearestEven_mul _ _ hupos]
  have hmag : m * 2 ^ e = z.natAbs * 2 ^ 149 := by
    rw [hm]; ring
  rw [hmag]
  have hpos : (0 : Int) < ((2 ^ 149 : Nat) : Int) * (d : Int) := by positivity
  by_cases hneg : z < 0
  · have : z * ((2 ^ 149 : Nat) : Int) * (d : Int) < 0 := by
      rw [mul_assoc]; exact mul_neg_of_neg_of_pos hneg hpos
    simp only [this, if_true]
    rw [Nat.cast_mul, Int.ofNat_natAbs_of_nonpos (le_of_lt hneg)]
    ring
  · have : ¬ z * ((2 ^ 149 : Nat) : Int) * (d : Int) < 0 := by
      rw [mul_assoc]; exact not_lt.2 (mul_nonneg (by omega) (le_of_lt hpos))
    simp only [this, if_false]
    rw [Nat.cast_mul, Int.natAbs_of_nonneg (by omega)]

theorem natAbs_le_of_bounds (z : Int) (h1 : -16777216 ≤ z) (h2 : z ≤ 16777216) :
    z.natAbs ≤ 2 ^ 24 := by
  omega

theorem F32.ofInt_exact (z : Int) (h1 : -16777216 ≤ z) (h2 : z ≤ 16777216) :
    F32.ofInt z = ⟨z * F32.unit⟩ := by
  have h := roundF32_exact z 1 (by decide) (natAbs_le_of_bounds z h1 h2)
  unfold F32.ofInt F32.unit
  rw [Nat.cast_one, mul_one] at h
  rw [h]

/-- When the level difference is `10 * j` and all integers involved have
magnitude at most `2^24`, every single-precision step is exact and the scaled
kill experience is `k * (1 + j)`. -/
theorem scaledKillExp_exact (k M L j : Int) (hd : M - L = 10 * j)
    (hM : -16777216 ≤ M ∧ M ≤ 16777216) (hL : -16777216 ≤ L ∧ L ≤ 16777216)
    (hk : -16777216 ≤ k ∧ k ≤ 16777216)
    (hj : -16777216 ≤ 10 * j ∧ 10 * j ≤ 16777216)
    (hkj : -16777216 ≤ k * (1 + j) ∧ k * (1 + j) ≤ 16777216) :
    scaledKillExp k M L = k * (1 + j) := by
  unfold scaledKillExp
  rw [F32.ofInt_exact k hk.1 hk.2, F32.ofInt_exact M hM.1 hM.2, F32.ofInt_exact L hL.1 hL.2,
    F32.ofInt_exact 1 (by decide) (by decide), F32.ofInt_exact 10 (by decide) (by decide)]
  have hsub : F32.sub ⟨M * F32.unit⟩ ⟨L * F32.unit⟩ = ⟨(10 * j) * F32.unit⟩ := by
    unfold F32.sub F32.unit
    have h := roundF32_exact (10 * j) 1 (by decide) (natAbs_le_of_bounds _ hj.1 hj.2)
    rw [Nat.cast_one, mul_one] at h
    rw [← h, ← hd]
    congr 2
    ring
  have hdiv : F32.div ⟨(10 * j) * F32.unit⟩ ⟨10 * F32.unit⟩ = ⟨j * F32.unit⟩ := by
    unfold F32.div F32.unit
    have h := roundF32_exact j (10 * 2 ^ 149) (by norm_num)
      (natAbs_le_of_bounds _ (by omega) (by omega))
    have hnn : ¬ (10 * ((2 ^ 149 : Nat) : Int) < 0) := by norm_num
    have hab : (10 * ((2 ^ 149 : Nat) : Int)).natAbs = 10 * 2 ^ 149 := by
      rw [Int.natAbs_mul]; rfl
    simp only [hnn, if_false, hab]
    rw [← h]
    congr 2
    push_cast
    ring
  have hadd : F32.add ⟨1 * F32.unit⟩ ⟨j * F32.unit⟩ = ⟨(1 + j) * F32.unit⟩ := by
    unfold F32.add F32.unit
    have h := roundF32_exact (1 + j) 1 (by decide)
      (natAbs_le_of_bounds _ (by omega) (by omega))
    rw [Nat.cast_one, mul_one] at h
    rw [← h]
    congr 2
    ring
  have hmul : F32.mul ⟨k * F32.unit⟩ ⟨(1 + j) * F32.unit⟩ = ⟨(k * (1 + j)) * F32.unit⟩ := by
    unfold F32.mul F32.unit
    have h := roundF32_exact (k * (1 + j)) (2 ^ 149) (Nat.two_pow_pos _)
      (natAbs_le_of_bounds _ hkj.1 hkj.2)
    rw [← h]
    congr 2
    ring
  rw [hsub, hdiv, hadd, hmul]
  unfold F32.toInt32
  have hu : ((F32.unit : Nat) : Int) ≠ 0 := by unfold F32.unit; norm_num
  have ht : Int.tdiv (k * (1 + j) * (F32.unit : Int)) (F32.unit : Int) = k * (1 + j) :=
    Int.mul_tdiv_cancel _ hu
  simp only [ht]
  rw [if_pos]
  unfold Fits32
  omega

/-! ## Lemmas on `levelUp` and the level-up loop -/

theorem levelUp_class (p : Player) (n : Int) : (levelUp p n).mPlayerClass = p.mPlayerClass := by
  rcases p with ⟨c, s, st⟩
  cases c <;> rfl

theorem levelUp_level (p : Player) (n : Int) : (levelUp p n).mPlayerStats.mLevel = n := by
  rcases p with ⟨c, s, st⟩
  cases c <;> rfl

theorem levelUp_exp (p : Player) (n : Int) :
    (levelUp p n).mPlayerStats.mExp = p.mPlayerStats.mExp := by
  rcases p with ⟨c, s, st⟩
  cases c <;> rfl

theorem levelUp_hp_max (p : Player) (n : Int) :
    (levelUp p n).mStats.mHp.max = i32 (p.mStats.mHp.max + hpGrowth p.mPlayerClass) := by
  rcases p with ⟨c, s, st⟩
  cases c <;> rfl

theorem levelUp_mana_max (p : Player) (n : Int) :
    (levelUp p n).mStats.mMana.max = i32 (p.mStats.mMana.max + manaGrowth p.mPlayerClass) := by
  rcases p with ⟨c, s, st⟩
  cases c <;> rfl

theorem levelUpLoop_nil (newLevel : Int) (fuel : Nat) (i : Int) (p : Player)
    (h : ¬ i < newLevel) : levelUpLoop newLevel fuel i p = [] := by
  cases fuel with
  | zero => rfl
  | succ f => simp [levelUpLoop, h]

theorem levelUpLoop_cons (newLevel : Int) (fuel : Nat) (i : Int) (p : Player)
    (h : i < newLevel) :
    levelUpLoop newLevel (fuel + 1) i p =
      levelUp p newLevel :: levelUpLoop newLevel fuel (i + 1) (levelUp p newLevel) := by
  simp [levelUpLoop, h]

/-- Any fuel of at least `newLevel - i` gives the same run: the loop ends
because its guard fails, not because the fuel runs out. -/
theorem levelUpLoop_fuel (newLevel : Int) : ∀ (fuel : Nat) (i : Int) (p : Player),
    (newLevel - i).toNat ≤ fuel →
      levelUpLoop newLevel fuel i p = levelUpLoop newLevel (newLevel - i).toNat i p := by
  intro fuel
  induction fuel with
  | zero =>
    intro i p h
    have : (newLevel - i).toNat = 0 := by omega
    rw [this]
  | succ f ih =>
    intro i p h
    by_cases hlt : i < newLevel
    · have hk : (newLevel - i).toNat = (newLevel - (i + 1)).toNat + 1 := by omega
      rw [hk, levelUpLoop_cons _ _ _ _ hlt, levelUpLoop_cons _ _ _ _ hlt,
        ih (i + 1) _ (by omega)]
    · rw [levelUpLoop_nil _ _ _ _ hlt, levelUpLoop_nil _ _ _ _ hlt]

theorem levelUpLoop_length (newLevel : Int) : ∀ (fuel : Nat) (i : Int) (p : Player),
    (newLevel - i).toNat ≤ fuel →
      (levelUpLoop newLevel fuel i p).length = (newLevel - i).toNat := by
  intro fuel
  induction fuel with
  | zero =>
    intro i p h
    simp only [levelUpLoop, List.length_nil]
    omega
  | succ f ih =>
    intro i p h
    by_cases hlt : i < newLevel
    · rw [levelUpLoop_cons _ _ _ _ hlt, List.length_cons, ih (i + 1) _ (by omega)]
      omega
    · rw [levelUpLoop_nil _ _ _ _ hlt, List.length_nil]
      omega

theorem levelUpLoop_levels (newLevel : Int) : ∀ (fuel : Nat) (i : Int) (p : Player),
    ∀ q ∈ levelUpLoop newLevel fuel i p, q.mPlayerStats.mLevel = newLevel := by
  intro fuel
  induction fuel with
  | zero => intro i p q hq; simp [levelUpLoop] at hq
  | succ f ih =>
    intro i p q hq
    by_cases hlt : i < newLevel
    · rw [levelUpLoop_cons _ _ _ _ hlt, List.mem_cons] at hq
      rcases hq with h | h
      · rw [h, levelUp_level]
      · exact ih _ _ q h
    · rw [levelUpLoop_nil _ _ _ _ hlt] at hq
      simp at hq

/-- The state after the loop: class and experience are untouched, and when the
loop runs at all the level is `newLevel` and the maxima grew once per call. -/
theorem levelUpLoop_last (newLevel : Int) : ∀ (fuel : Nat) (i : Int) (p : Player),
    (newLevel - i).toNat ≤ fuel →
      (lastState p (levelUpLoop newLevel fuel i p)).mPlayerClass = p.mPlayerClass ∧
      (lastState p (levelUpLoop newLevel fuel i p)).mPlayerStats.mExp = p.mPlayerStats.mExp ∧
      (¬ i < newLevel → lastState p (levelUpLoop newLevel fuel i p) = p) ∧
      (i < newLevel →
        (lastState p (levelUpLoop newLevel fuel i p)).mPlayerStats.mLevel = newLevel ∧
        (lastState p (levelUpLoop newLevel fuel i p)).mStats.mHp.max
          = i32 (p.mStats.mHp.max + (newLevel - i) * hpGrowth p.mPlayerClass) ∧
        (lastState p (levelUpLoop newLevel fuel i p)).mStats.mMana.max
          = i32 (p.mStats.mMana.max + (newLevel - i) * manaGrowth p.mPlayerClass)) := by
  intro fuel
  induction fuel with
  | zero =>
    intro i p h
    have hlt : ¬ i < newLevel := by omega
    simp [levelUpLoop, lastState, hlt]
  | succ f ih =>
    intro i p h
    by_cases hlt : i < newLevel
    · rw [levelUpLoop_cons _ _ _ _ hlt]
      simp only [lastState]
      obtain ⟨hc, he, hnil, hrun⟩ := ih (i + 1) (levelUp p newLevel) (by omega)
      refine ⟨by rw [hc, levelUp_class], by rw [he, levelUp_exp], fun h => absurd hlt h, fun _ => ?_⟩
      by_cases hlt2 : i + 1 < newLevel
      · obtain ⟨h1, h2, h3⟩ := hrun hlt2
        refine ⟨h1, ?_, ?_⟩
        · rw [h2, levelUp_hp_max, levelUp_class, i32_i32_add]
          congr 1; ring
        · rw [h3, levelUp_mana_max, levelUp_class, i32_i32_add]
          congr 1; ring
      · rw [hnil hlt2]
        have h1 : newLevel - i = 1 := by omega
        rw [h1, one_mul, one_mul]
        exact ⟨levelUp_level _ _, levelUp_hp_max _ _, levelUp_mana_max _ _⟩
    · rw [levelUpLoop_nil _ _ _ _ hlt]
      simp [lastState, hlt]

theorem creditExp_level (T : ExpTable) (p : Player) (m : Monster) :
    (creditExp T p m).mPlayerStats.mLevel = p.mPlayerStats.mLevel := rfl

theorem creditExp_class (T : ExpTable) (p : Player) (m : Monster) :
    (creditExp T p m).mPlayerClass = p.mPlayerClass := rfl

theorem creditExp_stats (T : ExpTable) (p : Player) (m : Monster) :
    (creditExp T p m).mStats = p.mStats := rfl

theorem creditExp_exp (T : ExpTable) (p : Player) (m : Monster) :
    (creditExp T p m).mPlayerStats.mExp =
      min (i32 (p.mPlayerStats.mExp + max 0 (scaledKillExp m.killExp m.level
        p.mPlayerStats.mLevel))) T.maxExp := by
  unfold creditExp gainedExp
  simp only [min_def]
  split <;> split <;> omega

theorem addExperienceLevelUps_eq (T : ExpTable) (p : Player) (m : Monster) :
    addExperienceLevelUps T p m =
      levelUpLoop (addExperienceNewLevel T p m)
        (addExperienceNewLevel T p m - p.mPlayerStats.mLevel).toNat
        p.mPlayerStats.mLevel (creditExp T p m) := rfl

theorem addExperience_eq (T : ExpTable) (p : Player) (m : Monster) :
    addExperience T p m =
      lastState (creditExp T p m)
        (levelUpLoop (addExperienceNewLevel T p m)
          (addExperienceNewLevel T p m - p.mPlayerStats.mLevel).toNat
          p.mPlayerStats.mLevel (creditExp T p m)) := rfl

theorem addExperience_exp (T : ExpTable) (p : Player) (m : Monster) :
    (addExperience T p m).mPlayerStats.mExp = (creditExp T p m).mPlayerStats.mExp := by
  rw [addExperience_eq]
  exact (levelUpLoop_last _ _ _ _ (le_refl _)).2.1


theorem addExperience_level (T : ExpTable) (p : Player) (m : Monster) :
    (addExperience T p m).mPlayerStats.mLevel
      = max p.mPlayerStats.mLevel (addExperienceNewLevel T p m) := by
  rw [addExperience_eq]
  obtain ⟨_, _, hnil, hrun⟩ := levelUpLoop_last (addExperienceNewLevel T p m) _
    p.mPlayerStats.mLevel (creditExp T p m) (le_refl _)
  by_cases hlt : p.mPlayerStats.mLevel < addExperienceNewLevel T p m
  · rw [(hrun hlt).1, max_eq_right (le_of_lt hlt)]
  · rw [hnil hlt, creditExp_level, max_eq_left (not_lt.1 hlt)]

/-! ## Claims about `Player::addExperience` and `Player::levelUp` -/

/-- C7 (as stated, refuted): a level-1 player with no experience kills a level-4
monster worth 90 experience. The exact scaled gain is `90 * 1.3 = 117`, but the
single-precision product is just below 117 and truncates to 116. -/
theorem addExperience_exp_rounds_below_exact :
    (addExperience sampleTable (samplePlayer PlayerClass.rogue) ⟨90, 4⟩).mPlayerStats.mExp = 116 ∧
      min ((samplePlayer PlayerClass.rogue).mPlayerStats.mExp
          + max 0 (exactScaledExp 90 4 (samplePlayer PlayerClass.rogue).mPlayerStats.mLevel))
        sampleTable.maxExp = 117 := by
  decide

/-- C7 (amended): after `addExperience` the experience is
`min(e + max(0, g), maxExp)`, the sum taken in `int32_t`, where `g` is the scaled
gain as the code computes it in single precision and truncates it. When the
level difference is a multiple of ten, `M - L = 10 * j`, and the levels, the
kill experience and the result are small enough to be exact in single precision,
`g` is the exact value `k * (1 + (M - L) / 10)` and the experience is the
claimed `min(e + max(0, k * (1 + (M - L) / 10)), maxExp)`. -/
theorem addExperience_exp_single_precision (T : ExpTable) (p : Player) (m : Monster) :
    (addExperience T p m).mPlayerStats.mExp =
        min (i32 (p.mPlayerStats.mExp
          + max 0 (scaledKillExp m.killExp m.level p.mPlayerStats.mLevel))) T.maxExp ∧
      ∀ j : Int, m.level - p.mPlayerStats.mLevel = 10 * j →
        (-8388608 ≤ m.level ∧ m.level ≤ 8388608) →
        (-8388608 ≤ p.mPlayerStats.mLevel ∧ p.mPlayerStats.mLevel ≤ 8388608) →
        (-16777216 ≤ m.killExp ∧ m.killExp ≤ 16777216) →
        (-16777216 ≤ m.killExp * (1 + j) ∧ m.killExp * (1 + j) ≤ 16777216) →
        scaledKillExp m.killExp m.level p.mPlayerStats.mLevel
            = exactScaledExp m.killExp m.level p.mPlayerStats.mLevel ∧
          (Fits32 (p.mPlayerStats.mExp
              + max 0 (exactScaledExp m.killExp m.level p.mPlayerStats.mLevel)) →
            (addExperience T p m).mPlayerStats.mExp =
              min (p.mPlayerStats.mExp
                + max 0 (exactScaledExp m.killExp m.level p.mPlayerStats.mLevel)) T.maxExp) := by
  have h1 := (addExperience_exp T p m).trans (creditExp_exp T p m)
  refine ⟨h1, fun j hj hM hL hk hkj => ?_⟩
  have hs := scaledKillExp_exact m.killExp m.level p.mPlayerStats.mLevel j hj
    ⟨by omega, by omega⟩ ⟨by omega, by omega⟩ hk ⟨by omega, by omega⟩ hkj
  have he : exactScaledExp m.killExp m.level p.mPlayerStats.mLevel = m.killExp * (1 + j) := by
    unfold exactScaledExp
    rw [hj]
    have : m.killExp * (10 + 10 * j) = m.killExp * (1 + j) * 10 := by ring
    rw [this]
    exact Int.mul_tdiv_cancel _ (by decide)
  refine ⟨hs.trans he.symm, fun hfit => ?_⟩
  rw [h1, hs, ← he, i32_of_fits hfit]

/-- Witness for C7 (amended): a level-1 player kills a level-11 monster worth 100
experience (`j = 1`), reaching 200 experience. -/
theorem addExperience_exp_single_precision_witness :
    (addExperience sampleTable (samplePlayer PlayerClass.rogue) ⟨100, 11⟩).mPlayerStats.mExp =
      min ((samplePlayer PlayerClass.rogue).mPlayerStats.mExp
        + max 0 (exactScaledExp (Monster.mk 100 11).killExp (Monster.mk 100 11).level
            (samplePlayer PlayerClass.rogue).mPlayerStats.mLevel)) sampleTable.maxExp :=
  ((addExperience_exp_single_precision sampleTable (samplePlayer PlayerClass.rogue)
    ⟨100, 11⟩).2 1 (by decide) (by decide) (by decide) (by decide) (by decide)).2 (by decide)

/-- C8: for a kill worth 100 experience against a monster exactly 10 levels
above the player the gain is exactly 200, and the player's experience rises by
exactly 200 whenever the old experience plus 200 does not exceed the ceiling.
Levels are taken within `±2^24`, where `(float)` conversion is exact, and
`mExp`, `maxExp()` are `int32_t` values. -/
theorem addExperience_kill_100_ten_levels_above (T : ExpTable) (p : Player) (m : Monster)
    (hk : m.killExp = 100) (hl : m.level = p.mPlayerStats.mLevel + 10)
    (hlo : -16777216 ≤ p.mPlayerStats.mLevel) (hhi : p.mPlayerStats.mLevel + 10 ≤ 16777216)
    (hexp : Fits32 p.mPlayerStats.mExp) (hmax : Fits32 T.maxExp)
    (hcap : p.mPlayerStats.mExp + 200 ≤ T.maxExp) :
    gainedExp p m = 200 ∧
      (addExperience T p m).mPlayerStats.mExp = p.mPlayerStats.mExp + 200 := by
  have hs : scaledKillExp m.killExp m.level p.mPlayerStats.mLevel = 100 * (1 + 1) := by
    rw [hk]
    exact scaledKillExp_exact 100 m.level p.mPlayerStats.mLevel 1 (by omega)
      ⟨by omega, by omega⟩ ⟨by omega, by omega⟩ (by decide) (by decide) (by decide)
  have hg : gainedExp p m = 200 := by
    show max 0 (scaledKillExp m.killExp m.level p.mPlayerStats.mLevel) = 200
    rw [hs]
    decide
  refine ⟨hg, ?_⟩
  rw [addExperience_exp, creditExp_exp, hs]
  have hfit : Fits32 (p.mPlayerStats.mExp + 200) := by
    unfold Fits32 at hexp hmax ⊢
    omega
  have h200 : max (0 : Int) (100 * (1 + 1)) = 200 := by decide
  rw [h200, i32_of_fits hfit]
  exact min_eq_left hcap

/-- Witness for C8: the sample level-1 player against a level-11 monster worth
100 experience. -/
theorem addExperience_kill_100_ten_levels_above_witness :
    gainedExp (samplePlayer PlayerClass.warrior) ⟨100, 11⟩ = 200 ∧
      (addExperience sampleTable (samplePlayer PlayerClass.warrior) ⟨100, 11⟩).mPlayerStats.mExp
        = (samplePlayer PlayerClass.warrior).mPlayerStats.mExp + 200 :=
  addExperience_kill_100_ten_levels_above sampleTable (samplePlayer PlayerClass.warrior)
    ⟨100, 11⟩ rfl (by decide) (by decide) (by decide) (by decide) (by decide) (by decide)

/-- C9 (as stated, refuted): a level-1 player gains 200 experience, which crosses
the thresholds of levels 2 and 3. `levelUp` runs twice, and the level after the
first call is already 3: it never passes through level 2. -/
theorem addExperience_levelUps_skip_level_2 :
    addExperienceNewLevel sampleTable (samplePlayer PlayerClass.rogue) ⟨100, 11⟩
        = (samplePlayer PlayerClass.rogue).mPlayerStats.mLevel + 2 ∧
      (addExperienceLevelUps sampleTable (samplePlayer PlayerClass.rogue) ⟨100, 11⟩).map
        (fun q => q.mPlayerStats.mLevel) = [3, 3] ∧
      ¬ ((addExperienceLevelUps sampleTable (samplePlayer PlayerClass.rogue) ⟨100, 11⟩).map
        (fun q => q.mPlayerStats.mLevel) = [1 + 1, 1 + 2]) := by
  decide

/-- C9 (amended): when the new experience total crosses `k ≥ 1` level thresholds
(`expToLevel(new exp) = old level + k`), the loop of `addExperience` ends after
calling `levelUp` exactly `k` times, once per threshold crossed; each call sets
the level to the final level `old + k`, so the level after every call, and after
`addExperience`, is `old + k`. -/
theorem addExperience_levelUp_called_k_times (T : ExpTable) (p : Player) (m : Monster)
    (k : Nat) (hk : 1 ≤ k)
    (hnew : addExperienceNewLevel T p m = p.mPlayerStats.mLevel + k) :
    (addExperienceLevelUps T p m).length = k ∧
      (∀ q ∈ addExperienceLevelUps T p m, q.mPlayerStats.mLevel = p.mPlayerStats.mLevel + k) ∧
      (addExperience T p m).mPlayerStats.mLevel = p.mPlayerStats.mLevel + k ∧
      (∀ fuel : Nat, k ≤ fuel →
        levelUpLoop (addExperienceNewLevel T p m) fuel p.mPlayerStats.mLevel (creditExp T p m)
          = addExperienceLevelUps T p m) := by
  have hkk : (addExperienceNewLevel T p m - p.mPlayerStats.mLevel).toNat = k := by omega
  refine ⟨?_, ?_, ?_, ?_⟩
  · rw [addExperienceLevelUps_eq, levelUpLoop_length _ _ _ _ (le_refl _), hkk]
  · intro q hq
    rw [addExperienceLevelUps_eq] at hq
    rw [← hnew]
    exact levelUpLoop_levels _ _ _ _ q hq
  · rw [addExperience_level, hnew]
    exact max_eq_right (by omega)
  · intro fuel hf
    rw [addExperienceLevelUps_eq]
    exact levelUpLoop_fuel _ fuel _ _ (by omega)

/-- Witness for C9 (amended): the sample player crossing two thresholds. -/
theorem addExperience_levelUp_called_k_times_witness :
    (addExperienceLevelUps sampleTable (samplePlayer PlayerClass.rogue) ⟨100, 11⟩).length = 2 :=
  (addExperience_levelUp_called_k_times sampleTable (samplePlayer PlayerClass.rogue)
    ⟨100, 11⟩ 2 (by decide) (by decide)).1

/-- C10: when `addExperience` raises the player from level `L` to `L + k`
(`k ≥ 0`, the number of `levelUp` calls), the maximum HP and maximum mana grow by
exactly `k` times the class's per-level growth (warrior +2 / +1, rogue +2 / +2,
sorcerer +1 / +2): in `int32_t` arithmetic always, as exact integers whenever the
new maximum is representable; `k = 0` leaves both maxima unchanged. -/
theorem addExperience_max_hp_mana_growth (T : ExpTable) (p : Player) (m : Monster) :
    0 ≤ (addExperience T p m).mPlayerStats.mLevel - p.mPlayerStats.mLevel ∧
      ((addExperienceLevelUps T p m).length : Int)
        = (addExperience T p m).mPlayerStats.mLevel - p.mPlayerStats.mLevel ∧
      (1 ≤ (addExperience T p m).mPlayerStats.mLevel - p.mPlayerStats.mLevel →
        (addExperience T p m).mStats.mHp.max =
            i32 (p.mStats.mHp.max
              + ((addExperience T p m).mPlayerStats.mLevel - p.mPlayerStats.mLevel)
                * hpGrowth p.mPlayerClass) ∧
          (addExperience T p m).mStats.mMana.max =
            i32 (p.mStats.mMana.max
              + ((addExperience T p m).mPlayerStats.mLevel - p.mPlayerStats.mLevel)
                * manaGrowth p.mPlayerClass)) ∧
      (Fits32 (p.mStats.mHp.max
          + ((addExperience T p m).mPlayerStats.mLevel - p.mPlayerStats.mLevel)
            * hpGrowth p.mPlayerClass) →
        (addExperience T p m).mStats.mHp.max =
          p.mStats.mHp.max
            + ((addExperience T p m).mPlayerStats.mLevel - p.mPlayerStats.mLevel)
              * hpGrowth p.mPlayerClass) ∧
      (Fits32 (p.mStats.mMana.max
          + ((addExperience T p m).mPlayerStats.mLevel - p.mPlayerStats.mLevel)
            * manaGrowth p.mPlayerClass) →
        (addExperience T p m).mStats.mMana.max =
          p.mStats.mMana.max
            + ((addExperience T p m).mPlayerStats.mLevel - p.mPlayerStats.mLevel)
              * manaGrowth p.mPlayerClass) ∧
      ((addExperience T p m).mPlayerStats.mLevel - p.mPlayerStats.mLevel = 0 →
        (addExperience T p m).mStats.mHp.max = p.mStats.mHp.max ∧
        (addExperience T p m).mStats.mMana.max = p.mStats.mMana.max) := by
  have hlev := addExperience_level T p m
  have hlen : ((addExperienceLevelUps T p m).length : Int)
      = (addExperience T p m).mPlayerStats.mLevel - p.mPlayerStats.mLevel := by
    rw [addExperienceLevelUps_eq, levelUpLoop_length _ _ _ _ (le_refl _), hlev]
    rcases le_total p.mPlayerStats.mLevel (addExperienceNewLevel T p m) with h | h
    · rw [max_eq_right h]; omega
    · rw [max_eq_left h]; omega
  obtain ⟨_, _, hnil, hrun⟩ := levelUpLoop_last (addExperienceNewLevel T p m)
    (addExperienceNewLevel T p m - p.mPlayerStats.mLevel).toNat
    p.mPlayerStats.mLevel (creditExp T p m) (le_refl _)
  rw [← addExperience_eq] at hnil hrun
  by_cases hlt : p.mPlayerStats.mLevel < addExperienceNewLevel T p m
  · obtain ⟨h1, h2, h3⟩ := hrun hlt
    rw [creditExp_stats, creditExp_class] at h2 h3
    rw [← h1] at h2 h3
    refine ⟨by omega, hlen, fun _ => ⟨h2, h3⟩, fun hf => ?_, fun hf => ?_, fun h0 => ?_⟩
    · rw [h2, i32_of_fits hf]
    · rw [h3, i32_of_fits hf]
    · omega
  · have hsame := hnil hlt
    have hk0 : (addExperience T p m).mPlayerStats.mLevel - p.mPlayerStats.mLevel = 0 := by
      rw [hsame, creditExp_level]; omega
    rw [hk0]
    refine ⟨le_refl _, by rw [hlen, hk0], fun h => absurd h (by decide), fun _ => ?_,
      fun _ => ?_, fun _ => ?_⟩
    · rw [hsame, creditExp_stats]; ring
    · rw [hsame, creditExp_stats]; ring
    · rw [hsame, creditExp_stats]; exact ⟨rfl, rfl⟩

/-- Witness for C10: the sample rogue crosses two thresholds; the maximum HP
goes from 70 to 74. -/
theorem addExperience_max_hp_mana_growth_witness :
    (addExperience sampleTable (samplePlayer PlayerClass.rogue) ⟨100, 11⟩).mStats.mHp.max =
      (samplePlayer PlayerClass.rogue).mStats.mHp.max
        + ((addExperience sampleTable (samplePlayer PlayerClass.rogue)
            ⟨100, 11⟩).mPlayerStats.mLevel
          - (samplePlayer PlayerClass.rogue).mPlayerStats.mLevel)
          * hpGrowth (samplePlayer PlayerClass.rogue).mPlayerClass :=
  (addExperience_max_hp_mana_growth sampleTable (samplePlayer PlayerClass.rogue)
    ⟨100, 11⟩).2.2.2.1 (by decide)

/-! ## Current HP and mana after `addExperience` -/

theorem levelUp_hp_current (p : Player) (n : Int) :
    (levelUp p n).mStats.mHp.current = (levelUp p n).mStats.mHp.max := by
  rcases p with ⟨c, s, st⟩
  cases c <;> rfl

theorem levelUp_mana_current (p : Player) (n : Int) :
    (levelUp p n).mStats.mMana.current = (levelUp p n).mStats.mMana.max := by
  rcases p with ⟨c, s, st⟩
  cases c <;> rfl

theorem levelUpLoop_mem_levelUp (newLevel : Int) : ∀ (fuel : Nat) (i : Int) (p : Player),
    ∀ q ∈ levelUpLoop newLevel fuel i p, ∃ r : Player, q = levelUp r newLevel := by
  intro fuel
  induction fuel with
  | zero => intro i p q hq; simp [levelUpLoop] at hq
  | succ f ih =>
    intro i p q hq
    by_cases hlt : i < newLevel
    · rw [levelUpLoop_cons _ _ _ _ hlt, List.mem_cons] at hq
      rcases hq with h | h
      · exact ⟨p, h⟩
      · exact ih _ _ q h
    · rw [levelUpLoop_nil _ _ _ _ hlt] at hq
      simp at hq

theorem lastState_mem : ∀ (l : List Player) (p : Player), l ≠ [] → lastState p l ∈ l := by
  intro l
  induction l with
  | nil => intro p h; exact absurd rfl h
  | cons q rest ih =>
    intro p _
    by_cases hr : rest = []
    · subst hr
      simp [lastState]
    · simp only [lastState]
      exact List.mem_cons_of_mem _ (ih q hr)

/-- C11: after an `addExperience` call that raises the level by at least one,
the current HP equals the final maximum HP and the current mana equals the
final maximum mana (`heal()` and `restoreMana()` set current to max); when no
level is gained, current HP and mana are unchanged. -/
theorem addExperience_restores_hp_mana (T : ExpTable) (p : Player) (m : Monster) :
    (1 ≤ (addExperience T p m).mPlayerStats.mLevel - p.mPlayerStats.mLevel →
        (addExperience T p m).mStats.mHp.current = (addExperience T p m).mStats.mHp.max ∧
        (addExperience T p m).mStats.mMana.current = (addExperience T p m).mStats.mMana.max) ∧
      ((addExperience T p m).mPlayerStats.mLevel = p.mPlayerStats.mLevel →
        (addExperience T p m).mStats.mHp.current = p.mStats.mHp.current ∧
        (addExperience T p m).mStats.mMana.current = p.mStats.mMana.current) := by
  have hlev := addExperience_level T p m
  by_cases hlt : p.mPlayerStats.mLevel < addExperienceNewLevel T p m
  · have hne : addExperienceLevelUps T p m ≠ [] := by
      intro h
      have hl := levelUpLoop_length (addExperienceNewLevel T p m)
        (addExperienceNewLevel T p m - p.mPlayerStats.mLevel).toNat
        p.mPlayerStats.mLevel (creditExp T p m) (le_refl _)
      rw [← addExperienceLevelUps_eq, h, List.length_nil] at hl
      omega
    have hmem : addExperience T p m ∈ addExperienceLevelUps T p m :=
      lastState_mem _ (creditExp T p m) hne
    rw [addExperienceLevelUps_eq] at hmem
    obtain ⟨r, hr⟩ := levelUpLoop_mem_levelUp _ _ _ _ _ hmem
    refine ⟨fun _ => ?_, fun h => ?_⟩
    · rw [hr]
      exact ⟨levelUp_hp_current r _, levelUp_mana_current r _⟩
    · rw [hlev, max_eq_right (le_of_lt hlt)] at h
      omega
  · obtain ⟨_, _, hnil, _⟩ := levelUpLoop_last (addExperienceNewLevel T p m)
      (addExperienceNewLevel T p m - p.mPlayerStats.mLevel).toNat
      p.mPlayerStats.mLevel (creditExp T p m) (le_refl _)
    have hsame : addExperience T p m = creditExp T p m := by
      rw [addExperience_eq]; exact hnil hlt
    refine ⟨fun h => ?_, fun _ => ?_⟩
    · rw [hsame, creditExp_level] at h
      omega
    · rw [hsame, creditExp_stats]
      exact ⟨rfl, rfl⟩

/-- Witness for C11: the sample rogue (12 / 70 HP, 3 / 10 mana) crosses two
thresholds and ends with current equal to maximum. -/
theorem addExperience_restores_hp_mana_witness :
    (addExperience sampleTable (samplePlayer PlayerClass.rogue) ⟨100, 11⟩).mStats.mHp.current
        = (addExperience sampleTable (samplePlayer PlayerClass.rogue) ⟨100, 11⟩).mStats.mHp.max ∧
      (addExperience sampleTable (samplePlayer PlayerClass.rogue) ⟨100, 11⟩).mStats.mMana.current
        = (addExperience sampleTable (samplePlayer PlayerClass.rogue)
            ⟨100, 11⟩).mStats.mMana.max :=
  (addExperience_restores_hp_mana sampleTable (samplePlayer PlayerClass.rogue)
    ⟨100, 11⟩).1 (by decide)

/-! ## Use of the random stream -/

/-- C12: every call of `checkHit` makes exactly one draw from the shared stream,
`randomInRange(0, 99)`: on a logged stream the log grows by the single entry
`(0, 99)`, the stream is left where that draw leaves it, and this is the same
for every class, stat, armor value and outcome. -/
theorem checkHit_draws_exactly_once {σ : Type} (R : Rng σ) (g : Getters) (p : Player)
    (enemyArmor : Int) (s : σ) (log : List (Int × Int)) :
    (checkHit (loggedRng R) g p enemyArmor (s, log)).2
        = ((R.randomInRange s 0 99).2, log ++ [(0, 99)]) ∧
      (checkHit (loggedRng R) g p enemyArmor (s, log)).1 = (checkHit R g p enemyArmor s).1 ∧
      (checkHit R g p enemyArmor s).1
        = decide ((R.randomInRange s 0 99).1 < checkHitToHit g p enemyArmor) ∧
      (checkHit R g p enemyArmor s).2 = (R.randomInRange s 0 99).2 ∧
      (∀ (g2 : Getters) (p2 : Player) (armor2 : Int),
        (checkHit (loggedRng R) g2 p2 armor2 (s, log)).2
          = (checkHit (loggedRng R) g p enemyArmor (s, log)).2) :=
  ⟨rfl, rfl, rfl, rfl, fun _ _ _ => rfl⟩

theorem checkHit_sim {σ τ : Type} (R : Rng σ) (R2 : Rng τ) (Sim : σ → τ → Prop)
    (hsim : ∀ (s : σ) (t : τ) (lo hi : Int), Sim s t →
      (R.randomInRange s lo hi).1 = (R2.randomInRange t lo hi).1 ∧
      Sim (R.randomInRange s lo hi).2 (R2.randomInRange t lo hi).2)
    (g : Getters) (p : Player) (enemyArmor : Int) (s : σ) (t : τ) (h : Sim s t) :
    (checkHit R g p enemyArmor s).1 = (checkHit R2 g p enemyArmor t).1 ∧
      Sim (checkHit R g p enemyArmor s).2 (checkHit R2 g p enemyArmor t).2 := by
  obtain ⟨h1, h2⟩ := hsim s t 0 99 h
  unfold checkHit
  exact ⟨by simp only [h1], h2⟩

theorem meleeDamageVs_sim {σ τ : Type} (R : Rng σ) (R2 : Rng τ) (Sim : σ → τ → Prop)
    (hsim : ∀ (s : σ) (t : τ) (lo hi : Int), Sim s t →
      (R.randomInRange s lo hi).1 = (R2.randomInRange t lo hi).1 ∧
      Sim (R.randomInRange s lo hi).2 (R2.randomInRange t lo hi).2)
    (g : Getters) (p : Player) (s : σ) (t : τ) (h : Sim s t) :
    (meleeDamageVs R g p s).1 = (meleeDamageVs R2 g p t).1 ∧
      Sim (meleeDamageVs R g p s).2 (meleeDamageVs R2 g p t).2 := by
  obtain ⟨h1, h2⟩ := hsim s t g.itemBonus.minAttackDamage g.itemBonus.maxAttackDamage h
  obtain ⟨h3, h4⟩ := hsim _ _ 0 99 h2
  unfold meleeDamageVs
  simp only [h1, h3]
  by_cases hc : p.mPlayerClass = PlayerClass.warrior
  · simp only [hc, if_true]
    split
    · exact ⟨rfl, h4⟩
    · exact ⟨rfl, h4⟩
  · simp only [hc, if_false]
    exact ⟨trivial, h2⟩

/-- C13: `checkHit` and `meleeDamageVs` depend on the random stream only through
the values drawn. Two runs of the same calls (equal player state, getter values
and defender armor at each call) on streams that yield equal values draw by
draw produce the same sequence of hit / miss outcomes and damage values and
leave the streams in corresponding positions; on one and the same stream and
position the two runs are equal. -/
theorem runCalls_deterministic {σ τ : Type} (R : Rng σ) (R2 : Rng τ) (Sim : σ → τ → Prop)
    (hsim : ∀ (s : σ) (t : τ) (lo hi : Int), Sim s t →
      (R.randomInRange s lo hi).1 = (R2.randomInRange t lo hi).1 ∧
      Sim (R.randomInRange s lo hi).2 (R2.randomInRange t lo hi).2)
    (calls : List CombatCall) (s : σ) (t : τ) (h : Sim s t) :
    (runCalls R calls s).1 = (runCalls R2 calls t).1 ∧
      Sim (runCalls R calls s).2 (runCalls R2 calls t).2 := by
  induction calls generalizing s t with
  | nil => exact ⟨rfl, h⟩
  | cons c rest ih =>
    cases c with
    | checkHit g p enemyArmor =>
      obtain ⟨h1, h2⟩ := checkHit_sim R R2 Sim hsim g p enemyArmor s t h
      obtain ⟨h3, h4⟩ := ih _ _ h2
      simp only [runCalls]
      exact ⟨by rw [h1, h3], h4⟩
    | meleeDamageVs g p =>
      obtain ⟨h1, h2⟩ := meleeDamageVs_sim R R2 Sim hsim g p s t h
      obtain ⟨h3, h4⟩ := ih _ _ h2
      simp only [runCalls]
      exact ⟨by rw [h1, h3], h4⟩

/-- Witness for C13: a to-hit check followed by a warrior's damage roll, run on
a replayed stream and on the same stream with a draw log attached. -/
theorem runCalls_deterministic_witness :
    (runCalls listRng
        [CombatCall.checkHit sampleGetters (samplePlayer PlayerClass.warrior) 10,
          CombatCall.meleeDamageVs sampleGetters (samplePlayer PlayerClass.warrior)]
        [42, 4, 0]).1
      = (runCalls (loggedRng listRng)
        [CombatCall.checkHit sampleGetters (samplePlayer PlayerClass.warrior) 10,
          CombatCall.meleeDamageVs sampleGetters (samplePlayer PlayerClass.warrior)]
        ([42, 4, 0], [])).1 ∧
      (runCalls listRng
        [CombatCall.checkHit sampleGetters (samplePlayer PlayerClass.warrior) 10,
          CombatCall.meleeDamageVs sampleGetters (samplePlayer PlayerClass.warrior)]
        [42, 4, 0]).2
      = (runCalls (loggedRng listRng)
        [CombatCall.checkHit sampleGetters (samplePlayer PlayerClass.warrior) 10,
          CombatCall.meleeDamageVs sampleGetters (samplePlayer PlayerClass.warrior)]
        ([42, 4, 0], [])).2.1 :=
  runCalls_deterministic listRng (loggedRng listRng) (fun s t => s = t.1)
    (fun s t lo hi hst => by subst hst; exact ⟨rfl, rfl⟩)
    [CombatCall.checkHit sampleGetters (samplePlayer PlayerClass.warrior) 10,
      CombatCall.meleeDamageVs sampleGetters (samplePlayer PlayerClass.warrior)]
    [42, 4, 0] ([42, 4, 0], []) rfl

/-! ## Claims about the active spell and the sprite codes -/

/-- C14: for every prior value of `mActiveMissileIndex` and every `spellNumber`,
after `setActiveSpellNumber` the index is below 6, the size of
`mImplementedMissiles`, so the lookup of `castActiveSpell` is in bounds; the
result does not depend on `spellNumber`, and for an in-range index `i` it is
`(i + 1) mod 6`. -/
theorem setActiveSpellNumber_in_bounds (mActiveMissileIndex : Nat) (spellNumber : Int) :
    mImplementedMissiles.length = 6 ∧
      setActiveSpellNumber mActiveMissileIndex spellNumber < 6 ∧
      (castActiveSpell (setActiveSpellNumber mActiveMissileIndex spellNumber)).isSome = true ∧
      (∀ other : Int, setActiveSpellNumber mActiveMissileIndex other
        = setActiveSpellNumber mActiveMissileIndex spellNumber) ∧
      (mActiveMissileIndex < 6 →
        setActiveSpellNumber mActiveMissileIndex spellNumber = (mActiveMissileIndex + 1) % 6) := by
  have hlen : mImplementedMissiles.length = 6 := rfl
  have hlt : setActiveSpellNumber mActiveMissileIndex spellNumber < 6 := by
    unfold setActiveSpellNumber
    simp only [hlen]
    split <;> omega
  refine ⟨hlen, hlt, ?_, fun _ => rfl, fun hi => ?_⟩
  · generalize setActiveSpellNumber mActiveMissileIndex spellNumber = j at hlt
    interval_cases j <;> rfl
  · unfold setActiveSpellNumber
    simp only [hlen]
    split <;> omega

/-- Witness for C14: from index 5 the next index is 0. -/
theorem setActiveSpellNumber_in_bounds_witness :
    setActiveSpellNumber 5 3 = (5 + 1) % 6 :=
  (setActiveSpellNumber_in_bounds 5 3).2.2.2.2 (by decide)

/-- C15: in `updateSprites` the weapon code is non-empty whenever at most one
hand holds an item. When both hands hold items it is non-empty, and the
assertion `release_assert(!weapon.empty())` holds, if and only if the hand item
types are sword and shield in either order, bow and bow, axe and axe, staff and
staff, or at least one hand holds a mace; for every other pair the assertion
fails. -/
theorem updateSprites_weapon_nonempty_iff (inv : Inventory) :
    ((inv.leftHand.isEmpty = true ∨ inv.rightHand.isEmpty = true) →
        updateSpritesWeapon inv ≠ "" ∧ (updateSprites inv).isSome = true) ∧
      (inv.leftHand.isEmpty = false → inv.rightHand.isEmpty = false →
        ((updateSpritesWeapon inv ≠ "" ↔
            ((inv.leftHand.type = ItemType.sword ∧ inv.rightHand.type = ItemType.shield) ∨
              (inv.leftHand.type = ItemType.shield ∧ inv.rightHand.type = ItemType.sword) ∨
              (inv.leftHand.type = ItemType.bow ∧ inv.rightHand.type = ItemType.bow) ∨
              (inv.leftHand.type = ItemType.axe ∧ inv.rightHand.type = ItemType.axe) ∨
              (inv.leftHand.type = ItemType.staff ∧ inv.rightHand.type = ItemType.staff) ∨
              inv.leftHand.type = ItemType.mace ∨ inv.rightHand.type = ItemType.mace)) ∧
          ((updateSprites inv).isSome = true ↔ updateSpritesWeapon inv ≠ "") ∧
          ((updateSprites inv = none) ↔ updateSpritesWeapon inv = ""))) := by
  rcases inv with ⟨b, ⟨le, lt, lq⟩, ⟨re, rt, rq⟩⟩
  constructor
  · intro h
    cases le <;> cases re <;> simp at h
    · cases lt <;> simp [updateSpritesWeapon, updateSprites]
      split <;> decide
    · cases rt <;> simp [updateSpritesWeapon, updateSprites]
      split <;> decide
    · simp [updateSpritesWeapon, updateSprites]
  · intro hl hr
    simp only at hl hr
    subst hl hr
    refine ⟨?_, ?_, ?_⟩
    · cases lt <;> cases rt <;> simp [updateSpritesWeapon]
    · cases h : updateSpritesWeapon ⟨b, ⟨false, lt, lq⟩, ⟨false, rt, rq⟩⟩ with
      | mk d => simp [updateSprites, h]
    · simp [updateSprites]

/-- Witness for C15: a sword in the left hand and a shield in the right give the
weapon code `d`; the pair is in the supported list. -/
theorem updateSprites_weapon_nonempty_iff_witness :
    updateSpritesWeapon
        ⟨⟨true, ItemType.other 0, ItemEquipType.other 0⟩,
          ⟨false, ItemType.sword, ItemEquipType.oneHanded⟩,
          ⟨false, ItemType.shield, ItemEquipType.oneHanded⟩⟩ ≠ "" :=
  ((updateSprites_weapon_nonempty_iff
    ⟨⟨true, ItemType.other 0, ItemEquipType.other 0⟩,
      ⟨false, ItemType.sword, ItemEquipType.oneHanded⟩,
      ⟨false, ItemType.shield, ItemEquipType.oneHanded⟩⟩).2 rfl rfl).1.2
    (Or.inl ⟨rfl, rfl⟩)

/-! ## Sign of single-precision results -/

theorem roundNearestEven_zero (d : Nat) : roundNearestEven 0 d = 0 := by
  unfold roundNearestEven
  simp

theorem roundNearestEven_ge (a d : Nat) : a / d ≤ roundNearestEven a d := by
  unfold roundNearestEven
  dsimp only
  split
  · exact le_refl _
  · split
    · omega
    · split <;> omega

theorem roundF32_nonneg (n : Int) (d : Nat) (h : 0 ≤ n) : 0 ≤ roundF32 n d := by
  unfold roundF32
  have : ¬ n < 0 := by omega
  simp only [this, if_false]
  exact Int.ofNat_nonneg _

theorem roundF32_nonpos (n : Int) (d : Nat) (h : n ≤ 0) : roundF32 n d ≤ 0 := by
  unfold roundF32
  by_cases hn : n < 0
  · simp only [hn, if_true]
    have := Int.ofNat_nonneg
      (roundNearestEven n.natAbs (d * 2 ^ (bitLength (n.natAbs / d) - 24))
        * 2 ^ (bitLength (n.natAbs / d) - 24))
    omega
  · have h0 : n = 0 := by omega
    subst h0
    simp [roundNearestEven_zero]

/-- A negative quotient of magnitude at least `1.0` rounds to at most `-1.0`. -/
theorem roundF32_le_neg_unit (n : Int) (d : Nat) (hn : n < 0)
    (h : 2 ^ 149 ≤ n.natAbs / d) : roundF32 n d ≤ -((2 ^ 149 : Nat) : Int) := by
  unfold roundF32
  simp only [hn, if_true]
  have hs : ¬ bitLength (n.natAbs / d) ≤ 149 := by
    rw [bitLength_le_iff]; omega
  have hlow : ¬ bitLength (n.natAbs / d) ≤ bitLength (n.natAbs / d) - 1 := by omega
  rw [bitLength_le_iff] at hlow
  generalize bitLength (n.natAbs / d) = B at hs hlow ⊢
  have hB : B - 1 = (B - 24) + 23 := by omega
  have hq : 2 ^ 23 ≤ n.natAbs / (d * 2 ^ (B - 24)) := by
    rw [← Nat.div_div_eq_div_mul]
    rw [Nat.le_div_iff_mul_le (Nat.two_pow_pos _), ← pow_add, Nat.add_comm, ← hB]
    omega
  have hr := roundNearestEven_ge n.natAbs (d * 2 ^ (B - 24))
  have hmag : 2 ^ 149 ≤ roundNearestEven n.natAbs (d * 2 ^ (B - 24)) * 2 ^ (B - 24) := by
    calc 2 ^ 149 ≤ 2 ^ (B - 1) := Nat.pow_le_pow_right (by decide) (by omega)
      _ = 2 ^ 23 * 2 ^ (B - 24) := by rw [hB, pow_add, Nat.mul_comm]
      _ ≤ roundNearestEven n.natAbs (d * 2 ^ (B - 24)) * 2 ^ (B - 24) :=
          Nat.mul_le_mul_right _ (le_trans hq hr)
  have hc : ((2 ^ 149 : Nat) : Int)
      ≤ ((roundNearestEven n.natAbs (d * 2 ^ (B - 24)) * 2 ^ (B - 24) : Nat) : Int) :=
    Int.ofNat_le.2 hmag
  omega

theorem F32.toInt32_nonpos (x : F32) (h : x.units ≤ 0) : F32.toInt32 x ≤ 0 := by
  unfold F32.toInt32
  have hu : (0 : Int) < (F32.unit : Int) := by unfold F32.unit; positivity
  have ht : Int.tdiv x.units (F32.unit : Int) ≤ 0 := by
    rw [tdiv_of_pos_den _ _ hu]
    split
    · have : x.units = 0 := by omega
      rw [this]; simp
    · have := Int.ediv_nonneg (a := -x.units) (b := (F32.unit : Int)) (by omega) (le_of_lt hu)
      omega
  dsimp only
  split
  · exact ht
  · decide

/-- A kill worth non-negative experience against a monster more than ten levels
below the player scales to a non-positive value. -/
theorem scaledKillExp_nonpos (k M L : Int) (hk : 0 ≤ k) (hd : M + 10 < L)
    (hM : -8388608 ≤ M ∧ M ≤ 8388608) (hL : -8388608 ≤ L ∧ L ≤ 8388608) :
    scaledKillExp k M L ≤ 0 := by
  unfold scaledKillExp
  apply F32.toInt32_nonpos
  rw [F32.ofInt_exact M (by omega) (by omega), F32.ofInt_exact L (by omega) (by omega),
    F32.ofInt_exact 1 (by decide) (by decide), F32.ofInt_exact 10 (by decide) (by decide)]
  have hsub : F32.sub ⟨M * F32.unit⟩ ⟨L * F32.unit⟩ = ⟨(M - L) * F32.unit⟩ := by
    unfold F32.sub F32.unit
    have h := roundF32_exact (M - L) 1 (by decide) (natAbs_le_of_bounds _ (by omega) (by omega))
    rw [Nat.cast_one, mul_one] at h
    rw [← h]
    congr 2
    ring
  rw [hsub]
  have hdiv : (F32.div ⟨(M - L) * F32.unit⟩ ⟨10 * F32.unit⟩).units ≤ -(F32.unit : Int) := by
    unfold F32.div F32.unit
    have hnn : ¬ (10 * ((2 ^ 149 : Nat) : Int) < 0) := by norm_num
    have hab : (10 * ((2 ^ 149 : Nat) : Int)).natAbs = 10 * 2 ^ 149 := by
      rw [Int.natAbs_mul]; rfl
    simp only [hnn, if_false, hab]
    have hneg : (M - L) * ((2 ^ 149 : Nat) : Int) * ((2 ^ 149 : Nat) : Int) < 0 := by
      have hp : (0 : Int) < ((2 ^ 149 : Nat) : Int) := by positivity
      exact mul_neg_of_neg_of_pos (mul_neg_of_neg_of_pos (by omega) hp) hp
    apply roundF32_le_neg_unit _ _ hneg
    rw [Int.natAbs_mul, Int.natAbs_mul, Int.natAbs_ofNat]
    rw [Nat.le_div_iff_mul_le (by norm_num)]
    have h11 : 11 ≤ (M - L).natAbs := by omega
    calc 2 ^ 149 * (10 * 2 ^ 149) = 10 * 2 ^ 149 * 2 ^ 149 := by ring
      _ ≤ (M - L).natAbs * 2 ^ 149 * 2 ^ 149 :=
          Nat.mul_le_mul_right _ (Nat.mul_le_mul_right _ (by omega))
  have hadd : (F32.add ⟨1 * F32.unit⟩
      (F32.div ⟨(M - L) * F32.unit⟩ ⟨10 * F32.unit⟩)).units ≤ 0 := by
    unfold F32.add
    apply roundF32_nonpos
    show 1 * (F32.unit : Int) + (F32.div ⟨(M - L) * F32.unit⟩ ⟨10 * F32.unit⟩).units ≤ 0
    omega
  have hkf : 0 ≤ (F32.ofInt k).units := by
    unfold F32.ofInt
    apply roundF32_nonneg
    positivity
  unfold F32.mul
  apply roundF32_nonpos
  exact mul_nonpos_of_nonneg_of_nonpos hkf hadd

theorem gainedExp_nonneg (p : Player) (m : Monster) : 0 ≤ gainedExp p m :=
  le_max_left _ _

theorem creditExp_eq_self (T : ExpTable) (p : Player) (m : Monster)
    (h : (creditExp T p m).mPlayerStats.mExp = p.mPlayerStats.mExp) : creditExp T p m = p := by
  rcases p with ⟨c, ⟨dex, lvl, e⟩, st⟩
  unfold creditExp at h ⊢
  simp only at h ⊢
  rw [h]

/-- C16 (as stated, refuted): the gain against a monster more than 10 levels
below the player is not always 0. A level-20 player with 500 experience kills a
level-5 monster whose kill experience is `-100`: the scale `1 + (5 - 20) / 10`
is `-0.5`, the product is `50`, `std::max(0, 50)` keeps it, and the experience
rises to 550. With kill experience `100` and player level `2^30` against monster
level `2^30 - 11`, both levels convert to the same `float`, the scale is `1` and
the gain is `100`. -/
theorem addExperience_gain_positive_far_below :
    ((Monster.mk (-100) 5).level + 10 < veteranPlayer.mPlayerStats.mLevel ∧
        veteranPlayer.mPlayerStats.mExp ≤ sampleTable.maxExp ∧
        Fits32 (veteranPlayer.mPlayerStats.mExp + gainedExp veteranPlayer ⟨-100, 5⟩) ∧
        gainedExp veteranPlayer ⟨-100, 5⟩ = 50 ∧
        ¬ (gainedExp veteranPlayer ⟨-100, 5⟩ = 0) ∧
        (addExperience sampleTable veteranPlayer ⟨-100, 5⟩).mPlayerStats.mExp = 550) ∧
      ((Monster.mk 100 1073741813).level + 10 < 1073741824 ∧
        gainedExp
          { veteranPlayer with
            mPlayerStats := { mDexterity := 40, mLevel := 1073741824, mExp := 500 } }
          ⟨100, 1073741813⟩ = 100) := by
  decide

/-- C16 (amended): `addExperience` never lowers experience or level. For a player
whose experience `e` is at most `maxExp` (with `e + gain` representable in
`int32_t`) the experience afterwards is `≥ e` and `≤ maxExp` and the level is `≥`
the old level. A monster more than 10 levels below the player, with non-negative
kill experience and levels of magnitude at most `2^23`, yields a gain of exactly
0; if then `expToLevel(e)` is not above the current level, the level, maximum HP
and maximum mana (indeed the whole player) are unchanged. -/
theorem addExperience_never_lowers (T : ExpTable) (p : Player) (m : Monster)
    (hemax : p.mPlayerStats.mExp ≤ T.maxExp)
    (hfit : Fits32 (p.mPlayerStats.mExp + gainedExp p m)) :
    p.mPlayerStats.mExp ≤ (addExperience T p m).mPlayerStats.mExp ∧
      (addExperience T p m).mPlayerStats.mExp ≤ T.maxExp ∧
      p.mPlayerStats.mLevel ≤ (addExperience T p m).mPlayerStats.mLevel ∧
      (0 ≤ m.killExp → m.level + 10 < p.mPlayerStats.mLevel →
        (-8388608 ≤ m.level ∧ m.level ≤ 8388608) →
        (-8388608 ≤ p.mPlayerStats.mLevel ∧ p.mPlayerStats.mLevel ≤ 8388608) →
        gainedExp p m = 0 ∧
          (addExperience T p m).mPlayerStats.mExp = p.mPlayerStats.mExp ∧
          (T.expToLevel p.mPlayerStats.mExp ≤ p.mPlayerStats.mLevel →
            (addExperience T p m).mPlayerStats.mLevel = p.mPlayerStats.mLevel ∧
            (addExperience T p m).mStats.mHp.max = p.mStats.mHp.max ∧
            (addExperience T p m).mStats.mMana.max = p.mStats.mMana.max ∧
            addExperience T p m = p)) := by
  have hg := gainedExp_nonneg p m
  have hexp : (addExperience T p m).mPlayerStats.mExp
      = min (p.mPlayerStats.mExp + gainedExp p m) T.maxExp := by
    rw [addExperience_exp, creditExp_exp, ← i32_of_fits hfit]
    rfl
  have hlev := addExperience_level T p m
  refine ⟨?_, ?_, ?_, fun hk hd hM hL => ?_⟩
  · rw [hexp]
    exact le_min (by omega) hemax
  · rw [hexp]
    exact min_le_right _ _
  · rw [hlev]
    exact le_max_left _ _
  · have hs := scaledKillExp_nonpos m.killExp m.level p.mPlayerStats.mLevel hk hd hM hL
    have hg0 : gainedExp p m = 0 := by
      show max 0 (scaledKillExp m.killExp m.level p.mPlayerStats.mLevel) = 0
      exact max_eq_left hs
    have hsame : (addExperience T p m).mPlayerStats.mExp = p.mPlayerStats.mExp := by
      rw [hexp, hg0, add_zero]
      exact min_eq_left hemax
    refine ⟨hg0, hsame, fun hto => ?_⟩
    have hc : creditExp T p m = p :=
      creditExp_eq_self T p m (by rw [← addExperience_exp]; exact hsame)
    have hnew : addExperienceNewLevel T p m = T.expToLevel p.mPlayerStats.mExp := by
      unfold addExperienceNewLevel
      rw [hc]
    obtain ⟨_, _, hnil, _⟩ := levelUpLoop_last (addExperienceNewLevel T p m)
      (addExperienceNewLevel T p m - p.mPlayerStats.mLevel).toNat
      p.mPlayerStats.mLevel (creditExp T p m) (le_refl _)
    have hall : addExperience T p m = p := by
      rw [addExperience_eq, hnil (by rw [hnew]; omega), hc]
    rw [hall]
    exact ⟨rfl, rfl, rfl, rfl⟩

/-- Witness for C16 (amended): a level-20 player with 500 experience kills a level-5
monster worth 100 experience and gains nothing. -/
theorem addExperience_never_lowers_witness :
    gainedExp veteranPlayer ⟨100, 5⟩ = 0 ∧
      (addExperience sampleTable veteranPlayer ⟨100, 5⟩).mPlayerStats.mExp
        = veteranPlayer.mPlayerStats.mExp ∧
      (sampleTable.expToLevel veteranPlayer.mPlayerStats.mExp ≤ veteranPlayer.mPlayerStats.mLevel →
        (addExperience sampleTable veteranPlayer ⟨100, 5⟩).mPlayerStats.mLevel
          = veteranPlayer.mPlayerStats.mLevel ∧
        (addExperience sampleTable veteranPlayer ⟨100, 5⟩).mStats.mHp.max
          = veteranPlayer.mStats.mHp.max ∧
        (addExperience sampleTable veteranPlayer ⟨100, 5⟩).mStats.mMana.max
          = veteranPlayer.mStats.mMana.max ∧
        addExperience sampleTable veteranPlayer ⟨100, 5⟩ = veteranPlayer) :=
  (addExperience_never_lowers sampleTable veteranPlayer ⟨100, 5⟩ (by decide) (by decide)).2.2.2
    (by decide) (by decide) (by decide) (by decide)

end FAWorld
